import Mathlib

/-!
# CMRI: a node on the CMRInet serial bus

A shallow embedding of `CMRI.cpp` / `CMRI.h`: the bit codec (`getBit`, `setBit`),
the byte-driven frame parser (`nextChar`), the message dispatcher
(`processMessage` and its three handlers) and the frame encoder (`sendMessage`).

Modelling conventions.

* Bytes (`uint8_t`) are naturals below 256; a store into a `uint8_t` that can leave
  that range is written with an explicit `% 256`, a conversion to `uint16_t` with an
  explicit `% 65536`.
* `buf` is the 72-byte array `uint8_t buf[MAX_MESG_LEN]`, a list of bytes; a state is
  well formed when that list has length `MAX_MESG_LEN`.
* `messageLength` (`int`) is only ever assigned 0, its own successor, or a `uint16_t`
  byte count; it is a natural number.  `messageDest` (`int`) can hold -1; it is an
  integer.
* The line banks `inputs` / `outputs` are `bool *`: `none` is the null pointer,
  `some bank` an allocated array.
* The user callbacks and the transport are external.  Every operation returns the new
  object state together with the list of externally visible events it caused, in
  order: callback invocations with their arguments and bytes written to the stream.
  The callbacks are taken not to touch the object through the pointers they receive.
  The input query callback is a function of the line number.
* `Event.dispatch` is a ghost event recorded at the entry of `processMessage`; it
  carries the in-flight message as it is at the call.
* The diagnostic counters wrap around as the source's do: `x += 1` on a counter is
  `(x + 1) % m`, with `m` the number of values of the counter's type.  That number is
  fixed by the platform, not by the source, so the object carries it: `uintModulus`
  for `unsigned int` (`errorCount`) and `ulongModulus` for `unsigned long` (the other
  counters).  No operation changes the two moduli.  The constructor sets the values of
  the AVR Arduino boards, 2^16 and 2^32.  A modulus of 0 leaves a counter unbounded
  (`x % 0 = x`); it is used only where a property is stated for counters taken as
  unbounded naturals.
* `calloc` can fail: the registration methods take its outcome as an argument and
  store the null pointer when it failed.
* The debug stream only prints; it is left out.
-/

/-- The parser states, `enum cmriStreamState` of `CMRI.h`. -/
inductive cmriStreamState where
  | START
  | ATTN_NEXT
  | STX_NEXT
  | ADDR_NEXT
  | TYPE_NEXT
  | MAYBE_DATA_NEXT
  | DATA_NEXT
  deriving DecidableEq, Repr

/-- Externally visible events, plus the ghost event `dispatch`. -/
inductive Event where
  /-- Entry of `processMessage` with the message fields as they are at the call. -/
  | dispatch (messageDest : Int) (messageType : Nat) (messageLength : Nat) (buf : List Nat)
  /-- The call `(*initHandler) (buf, messageLength)`. -/
  | initCall (data : List Nat) (dataLen : Nat)
  /-- The call `(*inputHandler) (line)` and the value it returned. -/
  | inputCall (line : Nat) (val : Bool)
  /-- The call `(*perLineOutputHandler) (line, isOn)`. -/
  | perLineOutputCall (line : Nat) (isOn : Bool)
  /-- The call `(*overallOutputHandler) (numOutputs, outputs)`. -/
  | overallOutputCall (numOutputs : Nat) (outputs : List Bool)
  /-- The call `stream.write(b)`. -/
  | write (b : Nat)
  deriving DecidableEq, Repr

/-- The data members of `class CMRI`.  A handler that is only called (never asked for
a value the object uses) is a flag: `true` when the pointer is not null. -/
structure CMRI where
  nodeId : Nat
  currentState : cmriStreamState
  messageDest : Int
  messageType : Nat
  buf : List Nat
  messageLength : Nat
  tickCount : Nat
  charCount : Nat
  messagesSeen : Nat
  messagesProcessed : Nat
  errorCount : Nat
  initHandler : Bool
  numInputs : Nat
  inputs : Option (List Bool)
  inputHandler : Option (Nat → Bool)
  numOutputs : Nat
  outputs : Option (List Bool)
  perLineOutputHandler : Bool
  overallOutputHandler : Bool
  /-- The number of values of `unsigned int`, the type of `errorCount`. -/
  uintModulus : Nat
  /-- The number of values of `unsigned long`, the type of the other counters. -/
  ulongModulus : Nat

namespace CMRI

def ATTN : Nat := 0xFF
def STX : Nat := 0x02
def ETX : Nat := 0x03
def DLE : Nat := 0x10
def MAX_MESG_LEN : Nat := 72

/-- The number of values of `unsigned int` on the AVR Arduino boards (16 bits). -/
def UINT_VALUES : Nat := 65536

/-- The number of values of `unsigned long` on the AVR Arduino boards (32 bits). -/
def ULONG_VALUES : Nat := 4294967296

/-! ## Utility functions -/

/-- Source `static bool getBit(uint8_t * data, uint16_t dataLen, uint16_t bit)`.
The `int` value `data[byte] & (1 << offset)` converts to `true` when it is not zero. -/
def getBit (data : List Nat) (dataLen bit : Nat) : Bool :=
  let byte := bit / 8
  let offset := bit % 8
  if byte < dataLen then
    decide (data.getD byte 0 &&& (1 <<< offset) ≠ 0)
  else
    false

/-- Source `static void setBit(uint8_t * data, uint16_t dataLen, uint16_t bit, bool value)`.
`~(1 << offset)` is an `int`; its bit pattern is `0xFFFF` with bit `offset` flipped
(16-bit `int`; a wider `int` only adds high one bits, which the store drops). -/
def setBit (data : List Nat) (dataLen bit : Nat) (value : Bool) : List Nat :=
  let byte := bit / 8
  let offset := bit % 8
  if byte < dataLen then
    if value then
      data.set byte ((data.getD byte 0 ||| (1 <<< offset)) % 256)
    else
      data.set byte ((data.getD byte 0 &&& (0xFFFF ^^^ (1 <<< offset))) % 256)
  else
    data

/-! ## Private methods -/

/-- Source `CMRI::error`: counts the error, in `unsigned int` arithmetic, and yields
`START`. -/
def error (s : CMRI) : CMRI × cmriStreamState :=
  ({ s with errorCount := (s.errorCount + 1) % s.uintModulus }, cmriStreamState.START)

/-- Source `CMRI::isForMe`: `messageDest == nodeId`, compared as `int`. -/
def isForMe (s : CMRI) : Bool :=
  if s.messageDest = (s.nodeId : Int) then true else false

/-- Source `CMRI::addCharToMessage`: the new state and the returned flag. -/
def addCharToMessage (s : CMRI) (b : Nat) : CMRI × Bool :=
  if s.messageLength ≥ MAX_MESG_LEN then
    (s, false)
  else
    ({ s with buf := s.buf.set s.messageLength b, messageLength := s.messageLength + 1 }, true)

/-- Source `CMRI::resetMessage`. -/
def resetMessage (s : CMRI) : CMRI :=
  { s with messageType := 0, messageDest := -1, messageLength := 0 }

/-- Source `CMRI::changeState` (its debug printing is compiled out by `0 && debug`). -/
def changeState (s : CMRI) (newState : cmriStreamState) (_inputChar : Nat) : CMRI :=
  { s with currentState := newState }

/-- One iteration of the payload loop of `sendMessage`: the stream contents `out`
after the writes made for `buf[i]`. -/
def sendMessageBody (buf : List Nat) (out : List Nat) (i : Nat) : List Nat :=
  let out1 :=
    if buf.getD i 0 = ETX ∨ buf.getD i 0 = STX ∨ buf.getD i 0 = DLE then out ++ [DLE] else out
  out1 ++ [buf.getD i 0]

/-- Source `CMRI::sendMessage`: the bytes written to the stream, in order. -/
def sendBytes (s : CMRI) : List Nat :=
  let out := [0xff, 0xff, STX, s.nodeId, s.messageType]
  let out := (List.range s.messageLength).foldl (sendMessageBody s.buf) out
  out ++ [ETX]

/-- Source `CMRI::sendMessage` as events; the object is not changed. -/
def sendMessage (s : CMRI) : List Event :=
  s.sendBytes.map Event.write

/-- Source `CMRI::setOutput`. -/
def setOutput (s : CMRI) (line : Nat) (isOn : Bool) : CMRI × List Event :=
  match s.outputs with
  | some bank =>
    if line < s.numOutputs then
      ({ s with outputs := some (bank.set line isOn) },
        if s.perLineOutputHandler then [Event.perLineOutputCall line isOn] else [])
    else
      (s, [])
  | none => (s, [])

/-- The value `outputs[i]` of an allocated bank. -/
def outputAt (s : CMRI) (i : Nat) : Bool :=
  (s.outputs.getD []).getD i false

/-- One iteration of the loop of `processOutputs`, on (object, `anyChanges`, events). -/
def processOutputsBody (acc : CMRI × Bool × List Event) (i : Nat) :
    CMRI × Bool × List Event :=
  let s := acc.1
  let localV := s.outputAt i
  let incoming := getBit s.buf (s.messageLength % 65536) i
  if localV != incoming then
    let r := s.setOutput i incoming
    (r.1, true, acc.2.2 ++ r.2)
  else
    acc

/-- Source `CMRI::processOutputs`. -/
def processOutputs (s : CMRI) : CMRI × List Event :=
  match s.outputs with
  | none => (s, [])
  | some _ =>
    let r := (List.range s.numOutputs).foldl processOutputsBody (s, false, [])
    if r.2.1 && r.1.overallOutputHandler then
      (r.1, r.2.2 ++ [Event.overallOutputCall r.1.numOutputs (r.1.outputs.getD [])])
    else
      (r.1, r.2.2)

/-- Source `CMRI::processInit`: the returned flag of the handler is not used. -/
def processInit (s : CMRI) : CMRI × List Event :=
  if s.initHandler then (s, [Event.initCall s.buf s.messageLength]) else (s, [])

/-- Source `CMRI::pollInputs`. -/
def pollInputs (s : CMRI) : CMRI × List Event :=
  match s.inputHandler, s.inputs with
  | some h, some bank =>
    let bank1 := (List.range s.numInputs).foldl (fun bk i => bk.set i (h i)) bank
    let calls := (List.range s.numInputs).map (fun i => Event.inputCall i (h i))
    let s1 := { s with inputs := some bank1 }
    let messageByteCount := ((s1.numInputs / 8) + 1) % 65536
    if messageByteCount < MAX_MESG_LEN then
      let buf1 := (List.range s1.numInputs).foldl
        (fun bf i => setBit bf MAX_MESG_LEN (i % 65536) (bank1.getD i false)) s1.buf
      let s2 := { s1 with buf := buf1, messageType := 0x52, messageLength := messageByteCount }
      (s2, calls ++ s2.sendMessage)
    else
      (s1, calls)
  | _, _ => (s, [])

/-- Source `CMRI::processMessage`; `0x49`, `0x54`, `0x50` are the characters I, T and P.
The two counters are incremented in `unsigned long` arithmetic. -/
def processMessage (s : CMRI) : CMRI × List Event :=
  let call := Event.dispatch s.messageDest s.messageType s.messageLength s.buf
  let s1 := { s with messagesSeen := (s.messagesSeen + 1) % s.ulongModulus }
  if !s1.isForMe then
    (s1, [call])
  else
    let s2 := { s1 with messagesProcessed := (s1.messagesProcessed + 1) % s1.ulongModulus }
    let r :=
      if s2.messageType = 0x49 then s2.processInit
      else if s2.messageType = 0x54 then s2.processOutputs
      else if s2.messageType = 0x50 then s2.pollInputs
      else (s2, [])
    (r.1, call :: r.2)

/-- Source `CMRI::nextChar`, built with `STRICT_PROTOCOL_CHECKING` false as in the source.
`charCount` is incremented in `unsigned long` arithmetic. -/
def nextChar (s0 : CMRI) (b : Nat) : CMRI × List Event :=
  let s := { s0 with charCount := (s0.charCount + 1) % s0.ulongModulus }
  match s.currentState with
  | .START =>
    let r := if b = ATTN then (s, cmriStreamState.ATTN_NEXT) else s.error
    ((r.1.changeState r.2 b).resetMessage, [])
  | .ATTN_NEXT =>
    let r := if b = ATTN then (s, cmriStreamState.STX_NEXT) else s.error
    (r.1.changeState r.2 b, [])
  | .STX_NEXT =>
    let r := if b = STX then (s, cmriStreamState.ADDR_NEXT) else s.error
    (r.1.changeState r.2 b, [])
  | .ADDR_NEXT =>
    (({ s with messageDest := ((b % 256 : Nat) : Int) }).changeState .TYPE_NEXT b, [])
  | .TYPE_NEXT =>
    (({ s with messageType := b }).changeState .MAYBE_DATA_NEXT b, [])
  | .MAYBE_DATA_NEXT =>
    if b = ETX then
      let r := s.processMessage
      (r.1.changeState .START b, r.2)
    else if b = DLE then
      (s.changeState .DATA_NEXT b, [])
    else
      let a := s.addCharToMessage b
      let r := if a.2 then (a.1, cmriStreamState.MAYBE_DATA_NEXT) else a.1.error
      (r.1.changeState r.2 b, [])
  | .DATA_NEXT =>
    let a := s.addCharToMessage b
    let r := if a.2 then (a.1, cmriStreamState.MAYBE_DATA_NEXT) else a.1.error
    (r.1.changeState r.2 b, [])

/-- Feeding a sequence of bytes to `nextChar`, one at a time, as the loop of `check`
does; the events of the successive calls are concatenated. -/
def feed : CMRI → List Nat → CMRI × List Event
  | s, [] => (s, [])
  | s, b :: bs =>
    let r1 := s.nextChar b
    let r2 := feed r1.1 bs
    (r2.1, r1.2 ++ r2.2)

/-! ## Public methods -/

/-- Source `CMRI::CMRI(Stream & s, uint8_t n)`.  The constructor does not assign
`initHandler`, `numInputs`, `numOutputs`, `buf`, `messageDest` and `messageType`;
their indeterminate initial values are the arguments `ih`, `ni`, `no`, `bf`, `md`, `mt`.
The counters have the widths of the AVR Arduino boards. -/
def construct (n : Nat) (ih : Bool) (ni no : Nat) (bf : List Nat) (md : Int) (mt : Nat) :
    CMRI :=
  { nodeId := (n + 65) % 256
    currentState := .START
    messageDest := md
    messageType := mt
    buf := bf
    messageLength := 0
    tickCount := 0
    charCount := 0
    messagesSeen := 0
    messagesProcessed := 0
    errorCount := 0
    initHandler := ih
    numInputs := ni
    inputs := none
    inputHandler := none
    numOutputs := no
    outputs := none
    perLineOutputHandler := false
    overallOutputHandler := false
    uintModulus := UINT_VALUES
    ulongModulus := ULONG_VALUES }

/-- Source `CMRI::setInitHandler`. -/
def setInitHandler (s : CMRI) (initHandler : Bool) : CMRI :=
  { s with initHandler := initHandler }

/-- Source `CMRI::setInputHandler`.  `mem` is the outcome of `calloc`: on success the
bank is `numLines` lines, all false; on failure (which the standard also allows for a
request of zero lines) `inputs` is the null pointer, which the source stores
unchecked. -/
def setInputHandler (s : CMRI) (numLines : Nat) (inputHandler : Option (Nat → Bool))
    (mem : Bool) : CMRI :=
  if s.inputHandler.isNone ∨ s.inputs.isNone then
    { s with inputHandler := inputHandler
             numInputs := numLines
             inputs := if mem then some (List.replicate numLines false) else none }
  else
    s

/-- Source `CMRI::setOutputHandler`; the two handler names in the test are the parameters,
which shadow the members.  `mem` is the outcome of `calloc`: on success the bank is
`numLines` lines, all false; on failure `outputs` is the null pointer, which the source
stores unchecked. -/
def setOutputHandler (s : CMRI) (numLines : Nat)
    (perLineOutputHandler overallOutputHandler : Bool) (mem : Bool) : CMRI :=
  if perLineOutputHandler = false ∨ overallOutputHandler = false ∨ s.outputs.isNone then
    { s with perLineOutputHandler := perLineOutputHandler
             overallOutputHandler := overallOutputHandler
             numOutputs := numLines
             outputs := if mem then some (List.replicate numLines false) else none }
  else
    s

end CMRI

/-! ## Reference definitions, written from the specification -/

namespace CMRI

/-- Specification of the bit codec read: false beyond the buffer length, else whether
`buffer[n / 8] AND (1 << (n mod 8))` is non-zero. -/
def getBitSpec (buffer : List Nat) (L n : Nat) : Bool :=
  if n / 8 ≥ L then false else decide (Nat.land (buffer.getD (n / 8) 0) (Nat.shiftLeft 1 (n % 8)) ≠ 0)

/-- Specification of the escaping of one payload byte: a `DLE` before each of
`STX`, `ETX`, `DLE`, then the byte itself. -/
def escapeSpec (b : Nat) : List Nat :=
  if b = 0x02 ∨ b = 0x03 ∨ b = 0x10 then [0x10, b] else [b]

/-- Specification of the encoder: `ATTN ATTN STX <address> <type>`, the escaped
payload, `ETX`. -/
def encodeSpec (a t : Nat) (payload : List Nat) : List Nat :=
  [0xFF, 0xFF, 0x02, a, t] ++ payload.flatMap escapeSpec ++ [0x03]

/-- Whether a byte is one of the three that the encoder escapes. -/
def isControl (b : Nat) : Bool :=
  decide (b = 0x02 ∨ b = 0x03 ∨ b = 0x10)

/-! ## Frames on the wire, for stating the parser properties -/

/-- One token of an escaped payload: a byte sent as it is, or a byte sent after a
`DLE`. -/
inductive Token where
  | plain (b : Nat)
  | escaped (b : Nat)
  deriving DecidableEq, Repr

/-- A plain token is any byte other than `ETX` and `DLE`; an escaped token may carry
any byte. -/
def Token.valid : Token → Bool
  | .plain b => decide (b ≠ ETX ∧ b ≠ DLE)
  | .escaped _ => true

/-- The bytes of a token on the wire. -/
def Token.wire : Token → List Nat
  | .plain b => [b]
  | .escaped b => [DLE, b]

/-- The payload byte a token stands for. -/
def Token.byte : Token → Nat
  | .plain b => b
  | .escaped b => b

/-- The escaped payload on the wire. -/
def wirePayload (toks : List Token) : List Nat :=
  toks.flatMap Token.wire

/-- The unescaped payload. -/
def unescaped (toks : List Token) : List Nat :=
  toks.map Token.byte

/-- The frame `0xFF 0xFF 0x02 D T <escaped payload> 0x03`. -/
def frame (D T : Nat) (toks : List Token) : List Nat :=
  [0xFF, 0xFF, 0x02, D, T] ++ wirePayload toks ++ [0x03]

/-- Whether an event is the ghost event of a call of `processMessage`. -/
def isDispatch : Event → Bool
  | .dispatch _ _ _ _ => true
  | _ => false

/-- The calls of `processMessage` recorded in a list of events. -/
def dispatches (tr : List Event) : List Event :=
  tr.filter isDispatch

/-- The buffer after the bytes `bs` were stored one by one from index `k` on, as
successive `addCharToMessage` calls do. -/
def storeAt : List Nat → Nat → List Nat → List Nat
  | buf, _, [] => buf
  | buf, k, b :: bs => storeAt (buf.set k b) (k + 1) bs

/-- The value of a counter that held `c` after `k` increments in arithmetic modulo
`m`. -/
def countUp (m : Nat) : Nat → Nat → Nat
  | c, 0 => c
  | c, k + 1 => countUp m ((c + 1) % m) k

/-- The object after `nextChar` has counted the incoming byte and before it looks at
the parser state. -/
def counted (s : CMRI) : CMRI :=
  { s with charCount := (s.charCount + 1) % s.ulongModulus }

/-- The object after the header and the escaped payload of `frame D T toks` were fed
to `s`, before the closing `ETX`. -/
def afterPayload (s : CMRI) (D T : Nat) (toks : List Token) : CMRI :=
  { s with
    charCount := countUp s.ulongModulus s.charCount (5 + (wirePayload toks).length)
    currentState := .MAYBE_DATA_NEXT
    messageDest := ((D % 256 : Nat) : Int)
    messageType := T
    buf := storeAt s.buf 0 (unescaped toks)
    messageLength := toks.length }

/-- The object as it is when `processMessage` is entered on the closing `ETX` of
`frame D T toks` fed to `s`: `nextChar` has counted the `ETX`. -/
def atDispatch (s : CMRI) (D T : Nat) (toks : List Token) : CMRI :=
  (afterPayload s D T toks).counted

/-- The token the encoder sends for the payload byte `b`. -/
def tokenOf (b : Nat) : Token :=
  if b = 0x02 ∨ b = 0x03 ∨ b = 0x10 then .escaped b else .plain b

/-- Bit `i` of the payload of the message in flight, as `processOutputs` reads it. -/
def incomingBit (s : CMRI) (i : Nat) : Bool :=
  getBit s.buf (s.messageLength % 65536) i

/-- The per-line output call the loop of `processOutputs` makes for line `i` of the
bank `bank`: one call with the incoming bit when it differs from the stored value and
the per-line handler is registered. -/
def perLineCalls (s : CMRI) (bank : List Bool) (i : Nat) : List Event :=
  if bank.getD i false != s.incomingBit i then
    (if s.perLineOutputHandler then [Event.perLineOutputCall i (s.incomingBit i)] else [])
  else
    []

/-! ## Example objects -/

/-- A node with id 5 (wire address 70) and no handlers, its parser in `START`, with
stale values left in the message fields and the buffer. -/
def exampleNode : CMRI :=
  { construct 5 false 0 0 (List.replicate 72 0xAA) 0x41 0x54 with
    messageLength := 7
    charCount := 100
    errorCount := 3 }

/-- The node `exampleNode` holding an outgoing message of type R with the payload
`0x02 0x41 0x10 0x03 0xFF`. -/
def exampleSender : CMRI :=
  { exampleNode with
    messageType := 0x52
    buf := [0x02, 0x41, 0x10, 0x03, 0xFF] ++ List.replicate 67 0
    messageLength := 5 }

/-- The node `exampleNode` with three output lines, all off, and both output
callbacks registered, holding a received T message for it with the payload `0x05`. -/
def exampleOutputs : CMRI :=
  { exampleNode.setOutputHandler 3 true true true with
    messageDest := 70
    messageType := 0x54
    buf := 0x05 :: List.replicate 71 0
    messageLength := 1 }

/-- The node `exampleOutputs` with its message addressed to another node. -/
def exampleForOther : CMRI :=
  { exampleOutputs with messageDest := 71 }

/-- The node `exampleOutputs` with a message of the unknown type Q (`0x51`). -/
def exampleUnknown : CMRI :=
  { exampleOutputs with messageType := 0x51 }

/-! ## Transport writes, for stating what the node transmits -/

/-- Whether an event is a byte written to the stream. -/
def isWrite : Event → Bool
  | .write _ => true
  | _ => false

/-- The bytes written to the stream, as events, in a list of events. -/
def writes (tr : List Event) : List Event :=
  tr.filter isWrite

/-- The poll frame `FF FF 02 46 50 03`: destination 70, type P, no payload. -/
def pollFrame70 : List Nat :=
  [0xFF, 0xFF, 0x02, 0x46, 0x50, 0x03]

/-- The node `exampleOutputs` in the middle of the frame it holds: the parser is in
`MAYBE_DATA_NEXT` with one payload byte stored. -/
def exampleMidFrame : CMRI :=
  { exampleOutputs with currentState := .MAYBE_DATA_NEXT }

/-- A payload of exactly `MAX_MESG_LEN` plain bytes `0x41`. -/
def fullPayload : List Token :=
  List.replicate 72 (Token.plain 0x41)

/-- The message buffer after the second loop of `pollInputs` wrote the values `q i`
of the input lines into it with `setBit`. -/
def pollBuffer (s : CMRI) (q : Nat → Bool) : List Nat :=
  (List.range s.numInputs).foldl (fun bf i => setBit bf MAX_MESG_LEN i (q i)) s.buf

/-- The node `exampleNode` with ten input lines and a query callback that reports the
lines whose number is a multiple of three as on, holding a received P message for it. -/
def exampleInputs : CMRI :=
  { exampleNode.setInputHandler 10 (some (fun i => i % 3 == 0)) true with
    messageDest := 70
    messageType := 0x50
    messageLength := 0 }

/-! ## Reachable states, for stating the invariants -/

/-- What the user program does to the object: a byte read from the stream is fed to
`nextChar` (the loop of `check`), or one of the registration methods is called; `mem`
is the outcome of the `calloc` the method may make. -/
inductive Action where
  | byte (b : Nat)
  | setInit (initHandler : Bool)
  | setInput (numLines : Nat) (inputHandler : Option (Nat → Bool)) (mem : Bool)
  | setOutput (numLines : Nat) (perLineOutputHandler overallOutputHandler : Bool)
      (mem : Bool)

/-- The object after one action. -/
def act (s : CMRI) : Action → CMRI
  | .byte b => (s.nextChar b).1
  | .setInit h => s.setInitHandler h
  | .setInput n h m => s.setInputHandler n h m
  | .setOutput n p o m => s.setOutputHandler n p o m

/-- The object after a sequence of actions. -/
def run (s : CMRI) (acts : List Action) : CMRI :=
  acts.foldl act s

/-- The object `s` with the five diagnostic counters replaced by those of `k`. -/
def withCountersOf (s k : CMRI) : CMRI :=
  { s with
    tickCount := k.tickCount
    charCount := k.charCount
    messagesSeen := k.messagesSeen
    messagesProcessed := k.messagesProcessed
    errorCount := k.errorCount }

/-- A run that registers handlers for three outputs and ten inputs on a fresh node 5
and then feeds it a T frame and a P frame addressed to it. -/
def exampleRun : List Action :=
  [Action.setOutput 3 true true true,
      Action.setInput 10 (some (fun i => i % 3 == 0)) true]
    ++ (frame 70 0x54 [Token.plain 0x05]).map Action.byte
    ++ (frame 70 0x50 []).map Action.byte

/-- The node `exampleMidFrame` with its buffer full: `MAX_MESG_LEN` payload bytes are
stored. -/
def exampleFull : CMRI :=
  { exampleMidFrame with messageLength := 72 }

/-- The node `exampleMidFrame` with other values in its counters. -/
def exampleOtherCounters : CMRI :=
  { exampleMidFrame with
    charCount := 0
    messagesSeen := 12
    messagesProcessed := 4
    errorCount := 9 }

/-- The node `exampleInputs` at the end of the P frame it holds: the parser is in
`MAYBE_DATA_NEXT`, waiting for the closing `ETX`. -/
def exampleInputsMid : CMRI :=
  { exampleInputs with currentState := .MAYBE_DATA_NEXT }

/-- A freshly constructed node 5 (its buffer all zero) on which ten input lines were
registered with a query callback that reports the lines whose number is a multiple of
three as on. -/
def pollNode : CMRI :=
  (construct 5 false 0 0 (List.replicate 72 0) 0 0).setInputHandler 10
    (some (fun i => i % 3 == 0)) true

/-- A T frame for node 6 (wire address 71) with the payload `0x00 0xFF`, followed by
a poll of node 5. -/
def pollAfterFF : List Nat :=
  frame 71 0x54 [Token.plain 0x00, Token.plain 0xFF] ++ pollFrame70

/-- A T frame for node 6 (wire address 71) with the payload `0x00 0x00`, followed by
a poll of node 5. -/
def pollAfter00 : List Nat :=
  frame 71 0x54 [Token.plain 0x00, Token.plain 0x00] ++ pollFrame70

/-- The node `exampleForOther` after 2^32 - 1 messages were seen: `messagesSeen` holds
the largest `unsigned long` of the AVR boards. -/
def exampleSeenMax : CMRI :=
  { exampleForOther with messagesSeen := 4294967295 }

/-- The node `exampleUnknown` with `messagesSeen` and `messagesProcessed` at the
largest `unsigned long` of the AVR boards. -/
def exampleUnknownMax : CMRI :=
  { exampleUnknown with
    messagesSeen := 4294967295
    messagesProcessed := 4294967295 }

/-- The node `exampleNode` after 65535 errors: `errorCount` holds the largest
`unsigned int` of the AVR boards. -/
def exampleErrorMax : CMRI :=
  { exampleNode with errorCount := 65535 }

/-- The object with its counters taken as unbounded naturals: both moduli are 0, so
that every increment is exact. -/
def unboundedCounters (s : CMRI) : CMRI :=
  { s with
    uintModulus := 0
    ulongModulus := 0 }

/-- Whether an action passes two non-null callbacks when it is a call of
`setOutputHandler`; every other action does. -/
def Action.givesOutputCallbacks : Action → Bool
  | .setOutput _ p o _ => p && o
  | _ => true

end CMRI

/-! ## The bit codec -/

namespace CMRI

theorem and_one_shiftLeft_ne_zero (x o : Nat) :
    (x &&& (1 <<< o) ≠ 0) ↔ x.testBit o = true := by
  rw [Nat.one_shiftLeft, Nat.and_two_pow]
  have hpos : 0 < 2 ^ o := Nat.two_pow_pos o
  cases h : x.testBit o
  · simp
  · simp [Nat.pos_iff_ne_zero.mp hpos]

theorem getBit_eq_testBit (data : List Nat) (L n : Nat) :
    getBit data L n = (decide (n / 8 < L) && (data.getD (n / 8) 0).testBit (n % 8)) := by
  unfold getBit
  by_cases h : n / 8 < L
  · simp only [h, if_true, decide_True, Bool.true_and]
    rw [Bool.eq_iff_iff]
    simp only [decide_eq_true_eq]
    exact and_one_shiftLeft_ne_zero _ _
  · simp [h]

theorem length_setBit (data : List Nat) (L n : Nat) (v : Bool) :
    (setBit data L n v).length = data.length := by
  unfold setBit
  by_cases h : n / 8 < L <;> cases v <;> simp [h]

theorem testBit_set_byte (d o j : Nat) (hj : j < 8) :
    ((d ||| (1 <<< o)) % 256).testBit j = (d.testBit j || decide (o = j)) := by
  have h256 : (256 : Nat) = 2 ^ 8 := by norm_num
  rw [h256, Nat.testBit_mod_two_pow, Nat.testBit_or, Nat.one_shiftLeft, Nat.testBit_two_pow]
  simp [hj]

theorem testBit_clear_byte (d o j : Nat) (hj : j < 8) :
    ((d &&& (0xFFFF ^^^ (1 <<< o))) % 256).testBit j = (d.testBit j && !decide (o = j)) := by
  have h256 : (256 : Nat) = 2 ^ 8 := by norm_num
  have hF : (0xFFFF : Nat) = 2 ^ 16 - 1 := by norm_num
  rw [h256, Nat.testBit_mod_two_pow, Nat.testBit_and, Nat.testBit_xor, Nat.one_shiftLeft,
    Nat.testBit_two_pow, hF, Nat.testBit_two_pow_sub_one]
  have : j < 16 := by omega
  simp [hj, this]

theorem getD_set_eq (data : List Nat) (k x : Nat) (hk : k < data.length) :
    (data.set k x).getD k 0 = x := by
  simp [List.getD_eq_getElem?_getD, List.getElem?_set, hk]

theorem getD_set_ne (data : List Nat) (k j x : Nat) (hkj : k ≠ j) :
    (data.set k x).getD j 0 = data.getD j 0 := by
  simp [List.getD_eq_getElem?_getD, List.getElem?_set, hkj]

theorem getD_setBit_ne (data : List Nat) (L n j : Nat) (v : Bool) (h : n / 8 ≠ j) :
    (setBit data L n v).getD j 0 = data.getD j 0 := by
  unfold setBit
  by_cases hL : n / 8 < L <;> cases v <;>
    simp only [hL, if_true, if_false, Bool.false_eq_true, getD_set_ne _ _ _ _ h]

theorem testBit_getD_setBit (data : List Nat) (L n j : Nat) (v : Bool)
    (hL : n / 8 < L) (hlen : n / 8 < data.length) (hj : j < 8) :
    ((setBit data L n v).getD (n / 8) 0).testBit j
      = if n % 8 = j then v else (data.getD (n / 8) 0).testBit j := by
  unfold setBit
  cases v
  · simp only [hL, if_true, Bool.false_eq_true, if_false]
    rw [getD_set_eq _ _ _ hlen, testBit_clear_byte _ _ _ hj]
    by_cases e : n % 8 = j <;> simp [e]
  · simp only [hL, if_true]
    rw [getD_set_eq _ _ _ hlen, testBit_set_byte _ _ _ hj]
    by_cases e : n % 8 = j <;> simp [e]

theorem setBit_of_length_le (data : List Nat) (L n : Nat) (v : Bool)
    (h : data.length ≤ n / 8) : setBit data L n v = data := by
  unfold setBit
  by_cases hL : n / 8 < L <;> cases v <;> simp [hL, List.set_eq_of_length_le h]

theorem getBit_setBit_ne (data : List Nat) (L n m : Nat) (v : Bool) (hmn : m ≠ n) :
    getBit (setBit data L n v) L m = getBit data L m := by
  rw [getBit_eq_testBit, getBit_eq_testBit]
  by_cases hb : n / 8 = m / 8
  · by_cases hL : n / 8 < L
    · by_cases hlen : n / 8 < data.length
      · have hj : m % 8 < 8 := Nat.mod_lt _ (by decide)
        have hne : n % 8 ≠ m % 8 := by omega
        rw [← hb, testBit_getD_setBit data L n (m % 8) v hL hlen hj, if_neg hne]
      · rw [setBit_of_length_le data L n v (by omega)]
    · have : ¬ m / 8 < L := by omega
      simp [this]
  · rw [getD_setBit_ne data L n (m / 8) v hb]

theorem getBit_setBit_self (buffer : List Nat) (L n : Nat) (v : Bool)
    (hlen : L ≤ buffer.length) (hn : n / 8 < L) :
    getBit (setBit buffer L n v) L n = v := by
  have hj : n % 8 < 8 := Nat.mod_lt _ (by decide)
  rw [getBit_eq_testBit, testBit_getD_setBit buffer L n (n % 8) v hn (by omega) hj]
  simp [hn]

/-- C4: bit codec round trip.  For a buffer holding at least `L` bytes, a bit index
`n` with `n / 8 < L` and a value `v`, reading bit `n` after `setBit` wrote `v` there
gives `v`. -/
theorem getBit_setBit_same (buffer : List Nat) (L n : Nat) (v : Bool)
    (hlen : L ≤ buffer.length) (hn : n / 8 < L) :
    getBit (setBit buffer L n v) L n = v := by
  have hj : n % 8 < 8 := Nat.mod_lt _ (by decide)
  rw [getBit_eq_testBit, testBit_getD_setBit buffer L n (n % 8) v hn (by omega) hj]
  simp [hn]

theorem getBit_setBit_same_witness :
    (2 ≤ [0x81, 0xFF].length ∧ 13 / 8 < 2) ∧
      getBit (setBit [0x81, 0xFF] 2 13 false) 2 13 = false :=
  ⟨by decide, getBit_setBit_same [0x81, 0xFF] 2 13 false (by decide) (by decide)⟩

/-- C5: `getBit` agrees with its reference definition for every buffer, length and
bit index: false when `n / 8 ≥ L`, else whether `buffer[n / 8] AND (1 << (n mod 8))`
is non-zero, which is bit `n mod 8` of that byte counted from the least-significant
bit. -/
theorem getBit_eq_getBitSpec (buffer : List Nat) (L n : Nat) :
    getBit buffer L n = getBitSpec buffer L n ∧
      getBit buffer L n = (decide (n / 8 < L) && (buffer.getD (n / 8) 0).testBit (n % 8)) ∧
      getBit buffer L n = (decide (n / 8 < L) && decide (buffer.getD (n / 8) 0 / 2 ^ (n % 8) % 2 = 1)) := by
  refine ⟨?_, getBit_eq_testBit buffer L n, ?_⟩
  · unfold getBit getBitSpec
    by_cases h : n / 8 < L
    · have h2 : ¬ n / 8 ≥ L := by omega
      simp only [h, h2, if_true, if_false]
      rfl
    · have h2 : n / 8 ≥ L := by omega
      simp only [h, h2, if_true, if_false]
  · rw [getBit_eq_testBit, Nat.testBit_to_div_mod]

/-- C6: `setBit` changes nothing but the addressed bit.  The buffer keeps its length,
`getBit` at every index `m ≠ n` returns what it returned before, and when
`n / 8 ≥ L` the buffer is unchanged. -/
theorem setBit_frame (buffer : List Nat) (L n : Nat) (v : Bool) :
    (setBit buffer L n v).length = buffer.length ∧
      (∀ m, m ≠ n → getBit (setBit buffer L n v) L m = getBit buffer L m) ∧
      (n / 8 ≥ L → setBit buffer L n v = buffer) := by
  refine ⟨length_setBit buffer L n v, fun m hm => getBit_setBit_ne buffer L n m v hm, ?_⟩
  intro h
  have h2 : ¬ n / 8 < L := by omega
  simp [setBit, h2]

theorem setBit_frame_witness :
    (setBit [0xA5, 0x3C] 2 9 true).length = 2 ∧
      getBit (setBit [0xA5, 0x3C] 2 9 true) 2 8 = getBit [0xA5, 0x3C] 2 8 ∧
      setBit [0xA5, 0x3C] 2 16 true = [0xA5, 0x3C] :=
  ⟨(setBit_frame [0xA5, 0x3C] 2 9 true).1,
    (setBit_frame [0xA5, 0x3C] 2 9 true).2.1 8 (by decide),
    (setBit_frame [0xA5, 0x3C] 2 16 true).2.2 (by decide)⟩

/-! ## The frame encoder -/

theorem sendMessageBody_eq (buf out : List Nat) (i : Nat) :
    sendMessageBody buf out i = out ++ escapeSpec (buf.getD i 0) := by
  unfold sendMessageBody escapeSpec
  generalize buf.getD i 0 = x
  simp only [ETX, STX, DLE]
  by_cases h : x = 2 ∨ x = 3 ∨ x = 16
  · have h2 : x = 3 ∨ x = 2 ∨ x = 16 := by tauto
    simp [h, h2]
  · have h2 : ¬ (x = 3 ∨ x = 2 ∨ x = 16) := by tauto
    simp [h, h2]

theorem foldl_sendMessageBody (buf : List Nat) (n : Nat) (out : List Nat) :
    (List.range n).foldl (sendMessageBody buf) out
      = out ++ ((List.range n).map (fun i => buf.getD i 0)).flatMap escapeSpec := by
  induction n with
  | zero => simp
  | succ k ih =>
    rw [List.range_succ, List.foldl_append, ih]
    simp [sendMessageBody_eq, List.flatMap_append]

theorem map_getD_range (buf : List Nat) (n : Nat) (h : n ≤ buf.length) :
    (List.range n).map (fun i => buf.getD i 0) = buf.take n := by
  induction n with
  | zero => simp
  | succ k ih =>
    have hk : k < buf.length := by omega
    rw [List.range_succ, List.map_append, ih (by omega), List.take_succ]
    simp [List.getD_eq_getElem?_getD, List.getElem?_eq_getElem hk]

theorem length_flatMap_escapeSpec (l : List Nat) :
    (l.flatMap escapeSpec).length = l.length + l.countP isControl := by
  induction l with
  | nil => simp
  | cons b t ih =>
    rw [List.flatMap_cons, List.length_append, ih, List.countP_cons, List.length_cons]
    by_cases h : b = 0x02 ∨ b = 0x03 ∨ b = 0x10
    · simp [escapeSpec, isControl, h]; omega
    · simp [escapeSpec, isControl, h]; omega

theorem sendBytes_eq_encodeSpec (s : CMRI) (h : s.messageLength ≤ s.buf.length) :
    s.sendBytes = encodeSpec s.nodeId s.messageType (s.buf.take s.messageLength) := by
  unfold sendBytes encodeSpec
  simp only [foldl_sendMessageBody, map_getD_range s.buf s.messageLength h, STX, ETX]

/-- C3: encoder output format.  For a message of `messageLength = n` bytes held in
the buffer, `sendMessage` writes exactly `0xFF 0xFF 0x02 nodeId messageType`, then for
each payload byte in order a `0x10` exactly when the byte is `0x02`, `0x03` or `0x10`
followed by the byte itself, then `0x03`; that is `6 + n + c` bytes, `c` the number of
payload bytes equal to `0x02`, `0x03` or `0x10`.  Address and type are not escaped. -/
theorem sendMessage_format (s : CMRI) (h : s.messageLength ≤ s.buf.length) :
    s.sendMessage
        = (encodeSpec s.nodeId s.messageType (s.buf.take s.messageLength)).map Event.write ∧
      s.sendMessage.length
        = 6 + s.messageLength + (s.buf.take s.messageLength).countP isControl := by
  have e := sendBytes_eq_encodeSpec s h
  refine ⟨by rw [sendMessage, e], ?_⟩
  rw [sendMessage, e, List.length_map, encodeSpec]
  simp only [List.length_append, length_flatMap_escapeSpec, List.length_take,
    List.length_cons, List.length_nil]
  omega

theorem sendMessage_format_witness :
    exampleSender.messageLength ≤ exampleSender.buf.length ∧
      exampleSender.sendMessage
        = [0xFF, 0xFF, 0x02, 70, 0x52, 0x10, 0x02, 0x41, 0x10, 0x10, 0x10, 0x03, 0xFF,
            0x03].map Event.write ∧
      exampleSender.sendMessage.length = 6 + 5 + 3 :=
  ⟨by decide, sendMessage_format exampleSender (by decide)⟩

/-! ## The frame parser -/

theorem feed_append (s : CMRI) (xs ys : List Nat) :
    feed s (xs ++ ys)
      = ((feed (feed s xs).1 ys).1, (feed s xs).2 ++ (feed (feed s xs).1 ys).2) := by
  induction xs generalizing s with
  | nil => simp [feed]
  | cons x t ih => simp [feed, ih, List.append_assoc]

theorem countUp_add (m c j k : Nat) :
    countUp m c (j + k) = countUp m (countUp m c j) k := by
  induction j generalizing c with
  | zero => simp [countUp]
  | succ j ih =>
    rw [Nat.succ_add]
    simp only [countUp]
    exact ih _

theorem feed_header (s : CMRI) (D T : Nat) (h : s.currentState = .START) :
    feed s [0xFF, 0xFF, 0x02, D, T]
      = ({ s with
            charCount := countUp s.ulongModulus s.charCount 5
            currentState := .MAYBE_DATA_NEXT
            messageDest := ((D % 256 : Nat) : Int)
            messageType := T
            messageLength := 0 }, []) := by
  cases s
  simp only at h
  subst h
  simp [feed, nextChar, changeState, resetMessage, ATTN, STX, countUp]

theorem feed_token (s : CMRI) (tok : Token) (h : s.currentState = .MAYBE_DATA_NEXT)
    (hlen : s.messageLength < MAX_MESG_LEN) (hv : tok.valid = true) :
    feed s tok.wire
      = ({ s with
            charCount := countUp s.ulongModulus s.charCount tok.wire.length
            buf := s.buf.set s.messageLength tok.byte
            messageLength := s.messageLength + 1 }, []) := by
  cases s
  simp only at h hlen
  subst h
  have hl : ¬ (MAX_MESG_LEN ≤ _) := Nat.not_le.mpr hlen
  cases tok with
  | plain b =>
    simp only [Token.valid, decide_eq_true_eq] at hv
    simp [feed, nextChar, changeState, addCharToMessage, Token.wire, Token.byte, hv.1, hv.2,
      hl, countUp]
  | escaped b =>
    simp [feed, nextChar, changeState, addCharToMessage, Token.wire, Token.byte, DLE, ETX, hl,
      countUp]

theorem feed_tokens (toks : List Token) (s : CMRI) (h : s.currentState = .MAYBE_DATA_NEXT)
    (hlen : s.messageLength + toks.length ≤ MAX_MESG_LEN)
    (hv : ∀ tok ∈ toks, tok.valid = true) :
    feed s (wirePayload toks)
      = ({ s with
            charCount := countUp s.ulongModulus s.charCount (wirePayload toks).length
            buf := storeAt s.buf s.messageLength (unescaped toks)
            messageLength := s.messageLength + toks.length }, []) := by
  induction toks generalizing s with
  | nil => simp [wirePayload, unescaped, storeAt, feed, countUp]
  | cons tok rest ih =>
    have h1 : s.messageLength < MAX_MESG_LEN := by
      simp only [List.length_cons] at hlen; omega
    have hv1 : tok.valid = true := hv tok (List.mem_cons_self _ _)
    have hw : wirePayload (tok :: rest) = tok.wire ++ wirePayload rest := by
      simp [wirePayload]
    rw [hw, feed_append, feed_token s tok h h1 hv1]
    dsimp only
    have key := ih { s with
        charCount := countUp s.ulongModulus s.charCount tok.wire.length
        buf := s.buf.set s.messageLength tok.byte
        messageLength := s.messageLength + 1 } h
      (by simp only [List.length_cons] at hlen ⊢; omega)
      (fun t ht => hv t (List.mem_cons_of_mem _ ht))
    rw [key]
    simp [unescaped, storeAt, Nat.add_assoc, Nat.add_comm 1, countUp_add]

theorem feed_payload (s : CMRI) (D T : Nat) (toks : List Token) (h : s.currentState = .START)
    (hlen : toks.length ≤ MAX_MESG_LEN) (hv : ∀ tok ∈ toks, tok.valid = true) :
    feed s ([0xFF, 0xFF, 0x02, D, T] ++ wirePayload toks) = (afterPayload s D T toks, []) := by
  rw [feed_append, feed_header s D T h]
  dsimp only
  have key := feed_tokens toks { s with
      charCount := countUp s.ulongModulus s.charCount 5
      currentState := .MAYBE_DATA_NEXT
      messageDest := ((D % 256 : Nat) : Int)
      messageType := T
      messageLength := 0 } rfl (by simpa using hlen) hv
  rw [key]
  simp [afterPayload, countUp_add]

theorem feed_frame (s : CMRI) (D T : Nat) (toks : List Token) (h : s.currentState = .START)
    (hlen : toks.length ≤ MAX_MESG_LEN) (hv : ∀ tok ∈ toks, tok.valid = true) :
    feed s (frame D T toks)
      = (((atDispatch s D T toks).processMessage).1.changeState .START ETX,
          ((atDispatch s D T toks).processMessage).2) := by
  rw [frame, feed_append, feed_payload s D T toks h hlen hv]
  simp [feed, nextChar, afterPayload, atDispatch, counted, ETX]

theorem storeAt_eq (bs : List Nat) (buf : List Nat) (k : Nat) (h : k + bs.length ≤ buf.length) :
    storeAt buf k bs = buf.take k ++ bs ++ buf.drop (k + bs.length) := by
  induction bs generalizing buf k with
  | nil => simp [storeAt]
  | cons b t ih =>
    simp only [List.length_cons] at h
    have hk : k < buf.length := by omega
    rw [storeAt, ih (buf.set k b) (k + 1) (by simp; omega)]
    have e1 : (buf.set k b).take (k + 1) = buf.take k ++ [b] := by
      have e0 : (buf.set k b).take k = buf.take k := by
        rw [List.set_take, List.set_eq_of_length_le (by simp)]
      rw [List.take_succ, e0]
      simp [List.getElem?_set, hk]
    have e2 : (buf.set k b).drop (k + 1 + t.length) = buf.drop (k + (t.length + 1)) := by
      rw [List.drop_set_of_lt _ _ (by omega)]
      congr 1; omega
    rw [e1, e2]
    simp

theorem take_storeAt (bs buf : List Nat) (h : bs.length ≤ buf.length) :
    (storeAt buf 0 bs).take bs.length = bs := by
  rw [storeAt_eq bs buf 0 (by omega)]
  simp

theorem length_storeAt (bs : List Nat) (buf : List Nat) (k : Nat) :
    (storeAt buf k bs).length = buf.length := by
  induction bs generalizing buf k with
  | nil => simp [storeAt]
  | cons b t ih => rw [storeAt, ih]; simp

/-! ## The handlers: what they leave unchanged -/

theorem dispatches_append (xs ys : List Event) :
    dispatches (xs ++ ys) = dispatches xs ++ dispatches ys := by
  simp [dispatches]

theorem setOutput_fst (s : CMRI) (i : Nat) (v : Bool) :
    (s.setOutput i v).1 = { s with outputs := (s.setOutput i v).1.outputs } := by
  unfold setOutput
  split
  · split <;> rfl
  · rfl

theorem dispatches_setOutput (s : CMRI) (i : Nat) (v : Bool) :
    dispatches (s.setOutput i v).2 = [] := by
  unfold setOutput
  split
  · split
    · cases s.perLineOutputHandler <;> simp [dispatches, isDispatch]
    · rfl
  · rfl

theorem processOutputsBody_inv (acc : CMRI × Bool × List Event) (i : Nat) :
    (processOutputsBody acc i).1
        = { acc.1 with outputs := (processOutputsBody acc i).1.outputs } ∧
      dispatches (processOutputsBody acc i).2.2 = dispatches acc.2.2 := by
  unfold processOutputsBody
  dsimp only
  split
  · refine ⟨setOutput_fst _ _ _, ?_⟩
    simp [dispatches_append, dispatches_setOutput]
  · exact ⟨rfl, rfl⟩

theorem foldl_processOutputsBody_inv (l : List Nat) (acc : CMRI × Bool × List Event) :
    (l.foldl processOutputsBody acc).1
        = { acc.1 with outputs := (l.foldl processOutputsBody acc).1.outputs } ∧
      dispatches (l.foldl processOutputsBody acc).2.2 = dispatches acc.2.2 := by
  induction l generalizing acc with
  | nil => exact ⟨rfl, rfl⟩
  | cons i t ih =>
    rw [List.foldl_cons]
    have h1 := processOutputsBody_inv acc i
    have h2 := ih (processOutputsBody acc i)
    refine ⟨?_, h2.2.trans h1.2⟩
    rw [h2.1, h1.1]

theorem processOutputs_fst (s : CMRI) :
    s.processOutputs.1 = { s with outputs := s.processOutputs.1.outputs } := by
  unfold processOutputs
  split
  · rfl
  · dsimp only
    have h := (foldl_processOutputsBody_inv (List.range s.numOutputs) (s, false, [])).1
    split <;> exact h

theorem dispatches_processOutputs (s : CMRI) : dispatches s.processOutputs.2 = [] := by
  unfold processOutputs
  split
  · rfl
  · dsimp only
    have h := (foldl_processOutputsBody_inv (List.range s.numOutputs) (s, false, [])).2
    split
    · rw [dispatches_append, h]; simp [dispatches, isDispatch]
    · rw [h]; rfl

theorem dispatches_map_write (l : List Nat) : dispatches (l.map Event.write) = [] := by
  induction l with
  | nil => rfl
  | cons b t ih => simp [dispatches, isDispatch]

theorem dispatches_map_inputCall (l : List Nat) (h : Nat → Bool) :
    dispatches (l.map (fun i => Event.inputCall i (h i))) = [] := by
  induction l with
  | nil => rfl
  | cons b t ih => simp [dispatches, isDispatch]

theorem pollInputs_fst (s : CMRI) :
    s.pollInputs.1 = { s with
      inputs := s.pollInputs.1.inputs
      buf := s.pollInputs.1.buf
      messageType := s.pollInputs.1.messageType
      messageLength := s.pollInputs.1.messageLength } := by
  unfold pollInputs
  split
  · dsimp only
    split <;> rfl
  · rfl

theorem dispatches_pollInputs (s : CMRI) : dispatches s.pollInputs.2 = [] := by
  unfold pollInputs
  split
  · dsimp only
    split
    · rw [dispatches_append, dispatches_map_inputCall, sendMessage, dispatches_map_write]; rfl
    · exact dispatches_map_inputCall _ _
  · rfl

theorem processInit_fst (s : CMRI) : s.processInit.1 = s := by
  unfold processInit
  split <;> rfl

theorem dispatches_processInit (s : CMRI) : dispatches s.processInit.2 = [] := by
  unfold processInit
  split <;> rfl

theorem dispatches_processMessage (s : CMRI) :
    dispatches s.processMessage.2
      = [Event.dispatch s.messageDest s.messageType s.messageLength s.buf] := by
  unfold processMessage
  dsimp only
  split
  · rfl
  · simp only [dispatches, List.filter_cons, isDispatch, if_true]
    congr 1
    split
    · exact dispatches_processInit _
    · split
      · exact dispatches_processOutputs _
      · split
        · exact dispatches_pollInputs _
        · rfl

theorem processMessage_errorCount (s : CMRI) :
    s.processMessage.1.errorCount = s.errorCount ∧
      s.processMessage.1.currentState = s.currentState ∧
      s.processMessage.1.nodeId = s.nodeId ∧
      s.processMessage.1.charCount = s.charCount := by
  unfold processMessage
  dsimp only
  split
  · exact ⟨rfl, rfl, rfl, rfl⟩
  · split
    · rw [processInit_fst]; exact ⟨rfl, rfl, rfl, rfl⟩
    · split
      · rw [processOutputs_fst]; exact ⟨rfl, rfl, rfl, rfl⟩
      · split
        · rw [pollInputs_fst]; exact ⟨rfl, rfl, rfl, rfl⟩
        · exact ⟨rfl, rfl, rfl, rfl⟩

/-! ## Parsing a frame -/

theorem dispatches_feed_frame (s : CMRI) (D T : Nat) (toks : List Token)
    (hs : s.currentState = .START) (hbuf : s.buf.length = MAX_MESG_LEN) (hD : D < 256)
    (hv : ∀ tok ∈ toks, tok.valid = true) (hlen : (unescaped toks).length ≤ MAX_MESG_LEN) :
    ∃ buf, dispatches (feed s (frame D T toks)).2
          = [Event.dispatch D T (unescaped toks).length buf] ∧
        buf.take (unescaped toks).length = unescaped toks := by
  have hl : toks.length ≤ MAX_MESG_LEN := by simpa [unescaped] using hlen
  rw [feed_frame s D T toks hs hl hv]
  refine ⟨storeAt s.buf 0 (unescaped toks), ?_, take_storeAt _ _ (by rw [hbuf]; exact hlen)⟩
  rw [dispatches_processMessage]
  simp [atDispatch, afterPayload, counted, unescaped, Nat.mod_eq_of_lt hD]

/-- C2: parsing a valid frame.  From state `START`, whatever stale values the message
fields and the buffer hold, for every destination byte `D`, type byte `T` and escaped
payload made of valid tokens with at most `MAX_MESG_LEN` unescaped bytes, feeding
`0xFF 0xFF 0x02 D T <escaped payload> 0x03` causes no event before the closing `ETX`
and exactly one call of `processMessage`, made with `messageDest = D`,
`messageType = T`, `messageLength` the unescaped length and the buffer starting with the
unescaped payload; the parser ends in `START` and `errorCount` is unchanged. -/
theorem nextChar_valid_frame (s : CMRI) (D T : Nat) (toks : List Token)
    (hs : s.currentState = .START) (hbuf : s.buf.length = MAX_MESG_LEN) (hD : D < 256)
    (hv : ∀ tok ∈ toks, tok.valid = true) (hlen : (unescaped toks).length ≤ MAX_MESG_LEN) :
    (feed s ([0xFF, 0xFF, 0x02, D, T] ++ wirePayload toks)).2 = [] ∧
      (∃ buf, dispatches (feed s (frame D T toks)).2
            = [Event.dispatch D T (unescaped toks).length buf] ∧
          buf.take (unescaped toks).length = unescaped toks) ∧
      (feed s (frame D T toks)).1.currentState = .START ∧
      (feed s (frame D T toks)).1.errorCount = s.errorCount := by
  have hl : toks.length ≤ MAX_MESG_LEN := by simpa [unescaped] using hlen
  rw [feed_payload s D T toks hs hl hv, feed_frame s D T toks hs hl hv]
  refine ⟨rfl, ⟨storeAt s.buf 0 (unescaped toks), ?_, ?_⟩, rfl, ?_⟩
  · rw [dispatches_processMessage]
    simp [atDispatch, afterPayload, counted, unescaped, Nat.mod_eq_of_lt hD]
  · exact take_storeAt _ _ (by rw [hbuf]; exact hlen)
  · exact (processMessage_errorCount _).1

theorem nextChar_valid_frame_witness :
    (exampleNode.currentState = .START ∧ exampleNode.buf.length = MAX_MESG_LEN ∧ 70 < 256 ∧
        (∀ tok ∈ [Token.plain 0x02, Token.escaped 0x03, Token.plain 0xFF, Token.escaped 0x41],
          tok.valid = true) ∧
        (unescaped [Token.plain 0x02, Token.escaped 0x03, Token.plain 0xFF,
          Token.escaped 0x41]).length ≤ MAX_MESG_LEN) ∧
      ((feed exampleNode ([0xFF, 0xFF, 0x02, 70, 0x03] ++ wirePayload [Token.plain 0x02,
          Token.escaped 0x03, Token.plain 0xFF, Token.escaped 0x41])).2 = [] ∧
        (∃ buf, dispatches (feed exampleNode (frame 70 0x03 [Token.plain 0x02,
              Token.escaped 0x03, Token.plain 0xFF, Token.escaped 0x41])).2
              = [Event.dispatch 70 0x03 (unescaped [Token.plain 0x02, Token.escaped 0x03,
                  Token.plain 0xFF, Token.escaped 0x41]).length buf] ∧
            buf.take (unescaped [Token.plain 0x02, Token.escaped 0x03, Token.plain 0xFF,
                Token.escaped 0x41]).length
              = unescaped [Token.plain 0x02, Token.escaped 0x03, Token.plain 0xFF,
                  Token.escaped 0x41]) ∧
        (feed exampleNode (frame 70 0x03 [Token.plain 0x02, Token.escaped 0x03,
          Token.plain 0xFF, Token.escaped 0x41])).1.currentState = .START ∧
        (feed exampleNode (frame 70 0x03 [Token.plain 0x02, Token.escaped 0x03,
          Token.plain 0xFF, Token.escaped 0x41])).1.errorCount = exampleNode.errorCount) :=
  ⟨⟨rfl, by decide, by decide, by decide, by decide⟩,
    nextChar_valid_frame exampleNode 70 0x03
      [Token.plain 0x02, Token.escaped 0x03, Token.plain 0xFF, Token.escaped 0x41]
      rfl (by decide) (by decide) (by decide) (by decide)⟩

/-! ## Round trip of encoder and parser -/

theorem wire_tokenOf (b : Nat) : (tokenOf b).wire = escapeSpec b := by
  unfold tokenOf escapeSpec
  split <;> simp [Token.wire, DLE]

theorem byte_tokenOf (b : Nat) : (tokenOf b).byte = b := by
  unfold tokenOf
  split <;> rfl

theorem valid_tokenOf (b : Nat) : (tokenOf b).valid = true := by
  unfold tokenOf
  split
  · rfl
  · rename_i h
    simp only [Token.valid, ETX, DLE, decide_eq_true_eq]
    omega

theorem wirePayload_map_tokenOf (p : List Nat) :
    wirePayload (p.map tokenOf) = p.flatMap escapeSpec := by
  induction p with
  | nil => rfl
  | cons b t ih =>
    simp only [wirePayload, List.map_cons, List.flatMap_cons, wire_tokenOf] at ih ⊢
    rw [ih]

theorem unescaped_map_tokenOf (p : List Nat) : unescaped (p.map tokenOf) = p := by
  induction p with
  | nil => rfl
  | cons b t ih =>
    simp only [unescaped, List.map_cons, byte_tokenOf] at ih ⊢
    rw [ih]

theorem encodeSpec_eq_frame (a t : Nat) (p : List Nat) :
    encodeSpec a t p = frame a t (p.map tokenOf) := by
  rw [encodeSpec, frame, wirePayload_map_tokenOf]

/-- C1: round trip of encoder and parser.  Let `e` hold an outgoing message: address
`e.nodeId`, type `e.messageType` and the payload `buf[0..messageLength)` of at most
`MAX_MESG_LEN` bytes.  The bytes `sendMessage` writes for it, fed one by one to
`nextChar` of a parser in `START`, cause exactly one call of `processMessage`, and at
that call `messageDest`, `messageType` and `messageLength` are those of `e` and the
buffer starts with the payload of `e`, byte for byte. -/
theorem sendMessage_nextChar_roundtrip (e s : CMRI)
    (hid : e.nodeId < 256) (hebuf : e.buf.length = MAX_MESG_LEN)
    (helen : e.messageLength ≤ MAX_MESG_LEN)
    (hs : s.currentState = .START) (hbuf : s.buf.length = MAX_MESG_LEN) :
    ∃ buf, dispatches (feed s e.sendBytes).2
          = [Event.dispatch e.nodeId e.messageType e.messageLength buf] ∧
        buf.take e.messageLength = e.buf.take e.messageLength := by
  have hp : (e.buf.take e.messageLength).length = e.messageLength := by
    rw [List.length_take, hebuf]; omega
  rw [sendBytes_eq_encodeSpec e (by omega), encodeSpec_eq_frame]
  have h := dispatches_feed_frame s e.nodeId e.messageType
    ((e.buf.take e.messageLength).map tokenOf) hs hbuf hid
    (fun tok ht => by
      obtain ⟨b, _, rfl⟩ := List.mem_map.mp ht
      exact valid_tokenOf b)
    (by rw [unescaped_map_tokenOf, hp]; exact helen)
  rw [unescaped_map_tokenOf, hp] at h
  exact h

theorem sendMessage_nextChar_roundtrip_witness :
    (exampleSender.nodeId < 256 ∧ exampleSender.buf.length = MAX_MESG_LEN ∧
        exampleSender.messageLength ≤ MAX_MESG_LEN ∧
        exampleNode.currentState = .START ∧ exampleNode.buf.length = MAX_MESG_LEN) ∧
      ∃ buf, dispatches (feed exampleNode exampleSender.sendBytes).2
            = [Event.dispatch exampleSender.nodeId exampleSender.messageType
                exampleSender.messageLength buf] ∧
          buf.take exampleSender.messageLength
            = exampleSender.buf.take exampleSender.messageLength :=
  ⟨⟨by decide, by decide, by decide, rfl, by decide⟩,
    sendMessage_nextChar_roundtrip exampleSender exampleNode
      (by decide) (by decide) (by decide) rfl (by decide)⟩

/-! ## The dispatcher -/

/-- C7, counterexample: a frame for another node arrives when `messagesSeen` holds
the largest 32-bit `unsigned long`, 2^32 - 1.  `processMessage` leaves `messagesSeen = 0`: the
counter has wrapped, it has not grown by one. -/
theorem messagesSeen_wraps_for_other_node :
    exampleSeenMax.messageDest ≠ (exampleSeenMax.nodeId : Int) ∧
      exampleSeenMax.messagesSeen = 4294967295 ∧
      exampleSeenMax.processMessage.1.messagesSeen = 0 ∧
      exampleSeenMax.processMessage.1.messagesSeen ≠ exampleSeenMax.messagesSeen + 1 := by
  decide

/-- C7, amended: address filtering.  When the destination of the completed frame
differs from `nodeId`, `processMessage` increments `messagesSeen` in `unsigned long`
arithmetic, that is to `(messagesSeen + 1) mod ulongModulus`: by exactly one when the
counter is below its largest value, to 0 from the largest value.  It changes nothing
else in the object (`messagesProcessed` and both line banks included); the only event is
the ghost event of the call itself: no callback is invoked and no byte is written,
whatever the message type and payload are. -/
theorem processMessage_not_for_me (s : CMRI) (h : s.messageDest ≠ (s.nodeId : Int)) :
    s.processMessage.1
        = { s with messagesSeen := (s.messagesSeen + 1) % s.ulongModulus } ∧
      s.processMessage.1.messagesSeen = (s.messagesSeen + 1) % s.ulongModulus ∧
      (s.messagesSeen + 1 < s.ulongModulus →
        s.processMessage.1.messagesSeen = s.messagesSeen + 1) ∧
      (s.messagesSeen + 1 = s.ulongModulus → s.processMessage.1.messagesSeen = 0) ∧
      s.processMessage.1.messagesProcessed = s.messagesProcessed ∧
      s.processMessage.1.inputs = s.inputs ∧
      s.processMessage.1.outputs = s.outputs ∧
      s.processMessage.2
        = [Event.dispatch s.messageDest s.messageType s.messageLength s.buf] := by
  have e : s.processMessage
      = ({ s with messagesSeen := (s.messagesSeen + 1) % s.ulongModulus },
          [Event.dispatch s.messageDest s.messageType s.messageLength s.buf]) := by
    simp [processMessage, isForMe, h]
  rw [e]
  refine ⟨rfl, rfl, ?_, ?_, rfl, rfl, rfl, rfl⟩
  · intro hlt
    exact Nat.mod_eq_of_lt hlt
  · intro heq
    show (s.messagesSeen + 1) % s.ulongModulus = 0
    rw [heq, Nat.mod_self]

theorem processMessage_not_for_me_witness :
    (exampleForOther.messageDest ≠ (exampleForOther.nodeId : Int) ∧
        exampleForOther.messagesSeen + 1 < exampleForOther.ulongModulus) ∧
      exampleForOther.processMessage.1.messagesSeen = exampleForOther.messagesSeen + 1 ∧
      exampleForOther.processMessage.1.messagesProcessed = exampleForOther.messagesProcessed ∧
      exampleForOther.processMessage.1.outputs = exampleForOther.outputs ∧
      exampleForOther.processMessage.2
        = [Event.dispatch exampleForOther.messageDest exampleForOther.messageType
            exampleForOther.messageLength exampleForOther.buf] :=
  ⟨⟨by decide, by decide⟩,
    (processMessage_not_for_me exampleForOther (by decide)).2.2.1 (by decide),
    (processMessage_not_for_me exampleForOther (by decide)).2.2.2.2.1,
    (processMessage_not_for_me exampleForOther (by decide)).2.2.2.2.2.2.1,
    (processMessage_not_for_me exampleForOther (by decide)).2.2.2.2.2.2.2⟩

/-- C8, counterexample: a frame of the unknown type Q addressed to this node arrives
when `messagesSeen` and `messagesProcessed` hold the largest 32-bit `unsigned long`.
`processMessage` leaves both counters at 0: they have wrapped, not grown by one. -/
theorem counters_wrap_for_unknown_type :
    exampleUnknownMax.messageDest = (exampleUnknownMax.nodeId : Int) ∧
      exampleUnknownMax.messageType = 0x51 ∧
      exampleUnknownMax.messagesSeen = 4294967295 ∧
      exampleUnknownMax.messagesProcessed = 4294967295 ∧
      exampleUnknownMax.processMessage.1.messagesSeen = 0 ∧
      exampleUnknownMax.processMessage.1.messagesProcessed = 0 := by
  decide

/-- C8, amended: unknown message type.  When the completed frame is addressed to this
node and its type is none of I (`0x49`), T (`0x54`), P (`0x50`), `processMessage`
increments `messagesSeen` and `messagesProcessed` in `unsigned long` arithmetic, each to
`(counter + 1) mod ulongModulus`: by exactly one when the counter is below its largest
value, to 0 from the largest value.  It changes nothing else in the object
(`errorCount` and both line banks included); the only event is the ghost event of the
call itself: no callback is invoked and no byte is written. -/
theorem processMessage_unknown_type (s : CMRI) (h : s.messageDest = (s.nodeId : Int))
    (hI : s.messageType ≠ 0x49) (hT : s.messageType ≠ 0x54) (hP : s.messageType ≠ 0x50) :
    s.processMessage.1
        = { s with
            messagesSeen := (s.messagesSeen + 1) % s.ulongModulus
            messagesProcessed := (s.messagesProcessed + 1) % s.ulongModulus } ∧
      s.processMessage.1.messagesSeen = (s.messagesSeen + 1) % s.ulongModulus ∧
      s.processMessage.1.messagesProcessed = (s.messagesProcessed + 1) % s.ulongModulus ∧
      (s.messagesSeen + 1 < s.ulongModulus →
        s.processMessage.1.messagesSeen = s.messagesSeen + 1) ∧
      (s.messagesProcessed + 1 < s.ulongModulus →
        s.processMessage.1.messagesProcessed = s.messagesProcessed + 1) ∧
      s.processMessage.1.errorCount = s.errorCount ∧
      s.processMessage.1.inputs = s.inputs ∧
      s.processMessage.1.outputs = s.outputs ∧
      s.processMessage.2
        = [Event.dispatch s.messageDest s.messageType s.messageLength s.buf] := by
  have e : s.processMessage
      = ({ s with
            messagesSeen := (s.messagesSeen + 1) % s.ulongModulus
            messagesProcessed := (s.messagesProcessed + 1) % s.ulongModulus },
          [Event.dispatch s.messageDest s.messageType s.messageLength s.buf]) := by
    simp [processMessage, isForMe, h, hI, hT, hP]
  rw [e]
  exact ⟨rfl, rfl, rfl, fun hlt => Nat.mod_eq_of_lt hlt, fun hlt => Nat.mod_eq_of_lt hlt,
    rfl, rfl, rfl, rfl⟩

theorem processMessage_unknown_type_witness :
    (exampleUnknown.messageDest = (exampleUnknown.nodeId : Int) ∧
        exampleUnknown.messageType ≠ 0x49 ∧ exampleUnknown.messageType ≠ 0x54 ∧
        exampleUnknown.messageType ≠ 0x50 ∧
        exampleUnknown.messagesSeen + 1 < exampleUnknown.ulongModulus ∧
        exampleUnknown.messagesProcessed + 1 < exampleUnknown.ulongModulus) ∧
      exampleUnknown.processMessage.1.messagesSeen = exampleUnknown.messagesSeen + 1 ∧
      exampleUnknown.processMessage.1.messagesProcessed
        = exampleUnknown.messagesProcessed + 1 ∧
      exampleUnknown.processMessage.1.errorCount = exampleUnknown.errorCount ∧
      exampleUnknown.processMessage.1.outputs = exampleUnknown.outputs ∧
      exampleUnknown.processMessage.2
        = [Event.dispatch exampleUnknown.messageDest exampleUnknown.messageType
            exampleUnknown.messageLength exampleUnknown.buf] :=
  ⟨⟨by decide, by decide, by decide, by decide, by decide, by decide⟩,
    (processMessage_unknown_type exampleUnknown (by decide) (by decide) (by decide)
      (by decide)).2.2.2.1 (by decide),
    (processMessage_unknown_type exampleUnknown (by decide) (by decide) (by decide)
      (by decide)).2.2.2.2.1 (by decide),
    (processMessage_unknown_type exampleUnknown (by decide) (by decide) (by decide)
      (by decide)).2.2.2.2.2.1,
    (processMessage_unknown_type exampleUnknown (by decide) (by decide) (by decide)
      (by decide)).2.2.2.2.2.2.2.1,
    (processMessage_unknown_type exampleUnknown (by decide) (by decide) (by decide)
      (by decide)).2.2.2.2.2.2.2.2⟩

/-! ## Apply-outputs -/

theorem set_map_append_drop (inc : Nat → Bool) (bank : List Bool) (k : Nat) (v : Bool)
    (hk : k < bank.length) :
    ((List.range k).map inc ++ bank.drop k).set k v
      = (List.range k).map inc ++ v :: bank.drop (k + 1) := by
  rw [List.set_append_right _ _ (by simp)]
  simp only [List.length_map, List.length_range, Nat.sub_self]
  rw [List.drop_eq_getElem_cons hk, List.set_cons_zero]

theorem getD_map_append_drop (inc : Nat → Bool) (bank : List Bool) (k : Nat) :
    ((List.range k).map inc ++ bank.drop k).getD k false = bank.getD k false := by
  rw [List.getD_append_right _ _ _ _ (by simp)]
  simp [List.getD_eq_getElem?_getD]

theorem map_succ_append_drop (inc : Nat → Bool) (bank : List Bool) (k : Nat) :
    (List.range (k + 1)).map inc ++ bank.drop (k + 1)
      = (List.range k).map inc ++ inc k :: bank.drop (k + 1) := by
  rw [List.range_succ, List.map_append]
  simp

theorem map_append_drop_of_eq (inc : Nat → Bool) (bank : List Bool) (k : Nat)
    (hk : k < bank.length) (he : bank.getD k false = inc k) :
    (List.range k).map inc ++ bank.drop k
      = (List.range (k + 1)).map inc ++ bank.drop (k + 1) := by
  rw [map_succ_append_drop, List.drop_eq_getElem_cons hk, ← he, List.getD_eq_getElem _ _ hk]

theorem foldl_processOutputsBody_eq (s : CMRI) (bank : List Bool)
    (hb : s.outputs = some bank) (hlen : bank.length = s.numOutputs)
    (k : Nat) (hk : k ≤ s.numOutputs) :
    (List.range k).foldl processOutputsBody (s, false, [])
      = ({ s with outputs := some ((List.range k).map s.incomingBit ++ bank.drop k) },
          (List.range k).any (fun i => bank.getD i false != s.incomingBit i),
          (List.range k).flatMap (perLineCalls s bank)) := by
  induction k with
  | zero =>
    cases s
    simp only at hb
    subst hb
    simp
  | succ k ih =>
    have hk1 : k < bank.length := by omega
    rw [List.range_succ, List.foldl_append, ih (by omega), List.any_append,
      List.flatMap_append]
    simp only [List.foldl_cons, List.foldl_nil, List.any_cons, List.any_nil, Bool.or_false,
      List.flatMap_cons, List.flatMap_nil, List.append_nil]
    unfold processOutputsBody
    simp only [outputAt, Option.getD_some, getD_map_append_drop]
    have hinc : ∀ i, getBit s.buf (s.messageLength % 65536) i = s.incomingBit i := fun _ => rfl
    simp only [hinc]
    by_cases he : bank.getD k false = s.incomingBit k
    · have hne : (bank.getD k false != s.incomingBit k) = false := by
        rw [he]; exact bne_self_eq_false _
      simp only [hne, Bool.false_eq_true, if_false, Bool.or_false, perLineCalls,
        List.append_nil]
      rw [map_append_drop_of_eq s.incomingBit bank k hk1 he, List.range_succ]
    · have hne : (bank.getD k false != s.incomingBit k) = true := bne_iff_ne.mpr he
      have hlt : k < s.numOutputs := by omega
      simp only [hne, if_true, Bool.or_true, perLineCalls, setOutput, hlt,
        set_map_append_drop s.incomingBit bank k _ hk1, List.map_append, List.map_cons,
        List.map_nil, List.append_assoc, List.singleton_append]

theorem processOutputs_eq (s : CMRI) (bank : List Bool)
    (hb : s.outputs = some bank) (hlen : bank.length = s.numOutputs) :
    s.processOutputs
      = ({ s with outputs := some ((List.range s.numOutputs).map s.incomingBit) },
          (List.range s.numOutputs).flatMap (perLineCalls s bank)
            ++ (if ((List.range s.numOutputs).any
                    (fun i => bank.getD i false != s.incomingBit i)
                  && s.overallOutputHandler) = true then
                [Event.overallOutputCall s.numOutputs
                  ((List.range s.numOutputs).map s.incomingBit)]
              else [])) := by
  have hd : bank.drop s.numOutputs = [] := List.drop_eq_nil_of_le (by omega)
  unfold processOutputs
  rw [hb]
  simp only [foldl_processOutputsBody_eq s bank hb hlen s.numOutputs (Nat.le_refl _), hd,
    List.append_nil, Option.getD_some]
  split <;> simp

theorem flatMap_perLineCalls (s : CMRI) (bank : List Bool) (l : List Nat)
    (hp : s.perLineOutputHandler = true) :
    l.flatMap (perLineCalls s bank)
      = (l.filter (fun i => bank.getD i false != s.incomingBit i)).map
          (fun i => Event.perLineOutputCall i (s.incomingBit i)) := by
  induction l with
  | nil => rfl
  | cons i t ih =>
    rw [List.flatMap_cons, ih, List.filter_cons]
    unfold perLineCalls
    cases h : (bank.getD i false != s.incomingBit i) <;> simp [hp]

theorem incomingBit_eq (s : CMRI) (h : s.messageLength ≤ MAX_MESG_LEN) (i : Nat) :
    s.incomingBit i = getBit s.buf s.messageLength i := by
  have : s.messageLength % 65536 = s.messageLength :=
    Nat.mod_eq_of_lt (by simp only [MAX_MESG_LEN] at h; omega)
  rw [incomingBit, this]

/-- C9: apply-outputs postcondition.  For an allocated output bank of `numOutputs`
lines and a message of `messageLength ≤ MAX_MESG_LEN` payload bytes, after
`processOutputs` the bank has the same length and line `i` holds
`getBit(buf, messageLength, i)` for every `i < numOutputs`; in particular every line
`i` with `i / 8 ≥ messageLength` is off. -/
theorem processOutputs_postcondition (s : CMRI) (bank : List Bool)
    (hb : s.outputs = some bank) (hlen : bank.length = s.numOutputs)
    (hml : s.messageLength ≤ MAX_MESG_LEN) :
    ∃ bank1, s.processOutputs.1.outputs = some bank1 ∧
      bank1.length = bank.length ∧
      s.processOutputs.1.numOutputs = s.numOutputs ∧
      (∀ i, i < s.numOutputs → bank1[i]? = some (getBit s.buf s.messageLength i)) ∧
      (∀ i, i < s.numOutputs → i / 8 ≥ s.messageLength → bank1[i]? = some false) := by
  have hget : ∀ i, i < s.numOutputs →
      ((List.range s.numOutputs).map s.incomingBit)[i]?
        = some (getBit s.buf s.messageLength i) := by
    intro i hi
    rw [List.getElem?_map, List.getElem?_range hi, Option.map_some', incomingBit_eq s hml]
  refine ⟨(List.range s.numOutputs).map s.incomingBit, ?_, ?_, ?_, hget, ?_⟩
  · rw [processOutputs_eq s bank hb hlen]
  · simp [hlen]
  · rw [processOutputs_eq s bank hb hlen]
  · intro i hi hge
    rw [hget i hi]
    have : ¬ i / 8 < s.messageLength := by omega
    simp [getBit, this]

theorem processOutputs_postcondition_witness :
    (exampleOutputs.outputs = some [false, false, false] ∧
        [false, false, false].length = exampleOutputs.numOutputs ∧
        exampleOutputs.messageLength ≤ MAX_MESG_LEN) ∧
      ∃ bank1, exampleOutputs.processOutputs.1.outputs = some bank1 ∧
        bank1.length = [false, false, false].length ∧
        exampleOutputs.processOutputs.1.numOutputs = exampleOutputs.numOutputs ∧
        (∀ i, i < exampleOutputs.numOutputs →
          bank1[i]? = some (getBit exampleOutputs.buf exampleOutputs.messageLength i)) ∧
        (∀ i, i < exampleOutputs.numOutputs → i / 8 ≥ exampleOutputs.messageLength →
          bank1[i]? = some false) :=
  ⟨⟨rfl, rfl, by decide⟩,
    processOutputs_postcondition exampleOutputs [false, false, false] rfl rfl (by decide)⟩

/-- C10: apply-outputs callback trace.  With an allocated bank and both output
callbacks registered, `processOutputs` calls the per-line callback once for each line
`i < numOutputs` whose stored value differs from bit `i` of the payload, in ascending
order of `i` and with the arguments `(i, bit i)`, and for no other line; then, exactly
when some line differed, it calls the bulk callback once with `numOutputs` and the
updated bank, which is the bank the object holds afterwards. -/
theorem processOutputs_trace (s : CMRI) (bank : List Bool)
    (hb : s.outputs = some bank) (hlen : bank.length = s.numOutputs)
    (hml : s.messageLength ≤ MAX_MESG_LEN)
    (hp : s.perLineOutputHandler = true) (ho : s.overallOutputHandler = true) :
    s.processOutputs.2
        = ((List.range s.numOutputs).filter
              (fun i => bank.getD i false != getBit s.buf s.messageLength i)).map
            (fun i => Event.perLineOutputCall i (getBit s.buf s.messageLength i))
          ++ (if (List.range s.numOutputs).any
                  (fun i => bank.getD i false != getBit s.buf s.messageLength i) = true then
                [Event.overallOutputCall s.numOutputs
                  ((List.range s.numOutputs).map (fun i => getBit s.buf s.messageLength i))]
              else []) ∧
      s.processOutputs.1.outputs
        = some ((List.range s.numOutputs).map (fun i => getBit s.buf s.messageLength i)) := by
  have hf : s.incomingBit = fun i => getBit s.buf s.messageLength i :=
    funext (incomingBit_eq s hml)
  rw [processOutputs_eq s bank hb hlen, flatMap_perLineCalls s bank _ hp, ho, hf]
  simp

theorem processOutputs_trace_witness :
    (exampleOutputs.outputs = some [false, false, false] ∧
        [false, false, false].length = exampleOutputs.numOutputs ∧
        exampleOutputs.messageLength ≤ MAX_MESG_LEN ∧
        exampleOutputs.perLineOutputHandler = true ∧
        exampleOutputs.overallOutputHandler = true) ∧
      exampleOutputs.processOutputs.2
        = [Event.perLineOutputCall 0 true, Event.perLineOutputCall 2 true,
            Event.overallOutputCall 3 [true, false, true]] ∧
      exampleOutputs.processOutputs.1.outputs = some [true, false, true] :=
  ⟨⟨rfl, rfl, by decide, rfl, rfl⟩,
    processOutputs_trace exampleOutputs [false, false, false] rfl rfl (by decide) rfl rfl⟩

/-! ## Poll with no inputs configured -/

/-- C12: poll with no inputs configured.  A node constructed with id 5 has the wire
address 70, and for every id up to 127 the address is `id + 65`, without 8-bit
wraparound.  Feeding `FF FF 02 46 50 03` to a freshly constructed node with id 5
(whatever the values of the members the constructor leaves unassigned) causes the one
call of `processMessage` and nothing else: no byte is written; afterwards
`messagesSeen = 1`, `messagesProcessed = 1`, `errorCount = 0` and the parser is in
`START`. -/
theorem poll_without_inputs (ih : Bool) (ni no : Nat) (bf : List Nat) (md : Int) (mt : Nat) :
    (construct 5 ih ni no bf md mt).nodeId = 70 ∧
      (∀ n, n ≤ 127 → (construct n ih ni no bf md mt).nodeId = n + 65) ∧
      (feed (construct 5 ih ni no bf md mt) pollFrame70).2 = [Event.dispatch 70 0x50 0 bf] ∧
      writes (feed (construct 5 ih ni no bf md mt) pollFrame70).2 = [] ∧
      (feed (construct 5 ih ni no bf md mt) pollFrame70).1.messagesSeen = 1 ∧
      (feed (construct 5 ih ni no bf md mt) pollFrame70).1.messagesProcessed = 1 ∧
      (feed (construct 5 ih ni no bf md mt) pollFrame70).1.errorCount = 0 ∧
      (feed (construct 5 ih ni no bf md mt) pollFrame70).1.currentState = .START := by
  have hfeed : feed (construct 5 ih ni no bf md mt) pollFrame70
      = ({ construct 5 ih ni no bf md mt with
            charCount := 6
            messageDest := 70
            messageType := 0x50
            messagesSeen := 1
            messagesProcessed := 1 }, [Event.dispatch 70 0x50 0 bf]) := by
    simp [feed, pollFrame70, nextChar, changeState, resetMessage, construct, processMessage,
      isForMe, pollInputs, ATTN, STX, ETX, DLE, ULONG_VALUES]
  refine ⟨rfl, ?_, ?_⟩
  · intro n hn
    show (n + 65) % 256 = n + 65
    omega
  · rw [hfeed]
    exact ⟨rfl, rfl, rfl, rfl, rfl, rfl⟩

theorem poll_without_inputs_witness :
    100 ≤ 127 ∧
      (construct 100 false 0 0 (List.replicate 72 0) 0 0).nodeId = 100 + 65 ∧
      writes (feed (construct 5 false 0 0 (List.replicate 72 0) 0 0) pollFrame70).2 = [] ∧
      (feed (construct 5 false 0 0 (List.replicate 72 0) 0 0) pollFrame70).1.messagesSeen = 1 :=
  ⟨by decide,
    (poll_without_inputs false 0 0 (List.replicate 72 0) 0 0).2.1 100 (by decide),
    (poll_without_inputs false 0 0 (List.replicate 72 0) 0 0).2.2.2.1,
    (poll_without_inputs false 0 0 (List.replicate 72 0) 0 0).2.2.2.2.1⟩

/-! ## The preamble -/

/-- C16, counterexample: the node is in `START` and `errorCount` holds the largest
16-bit `unsigned int`, 65535.  The byte `0x02` is a preamble error; afterwards `errorCount` is
0: the counter has wrapped, it has not grown by one. -/
theorem errorCount_wraps_on_preamble_error :
    exampleErrorMax.currentState = .START ∧
      exampleErrorMax.errorCount = 65535 ∧
      (exampleErrorMax.nextChar 0x02).1.currentState = .START ∧
      (exampleErrorMax.nextChar 0x02).1.errorCount = 0 ∧
      (exampleErrorMax.nextChar 0x02).1.errorCount ≠ exampleErrorMax.errorCount + 1 := by
  decide

/-- C16, amended: preamble error transition.  In `START` or `ATTN_NEXT` a byte other
than `ATTN`, and in `STX_NEXT` a byte other than `STX` (`ATTN` included), moves the
parser to `START`, increments `errorCount` in `unsigned int` arithmetic, that is to
`(errorCount + 1) mod uintModulus` (by exactly one when the counter is below its largest
value, to 0 from the largest value), causes no event at all (no dispatch, no callback,
no write) and leaves both line banks as they are.  The matching byte moves `START` to
`ATTN_NEXT`, `ATTN_NEXT` to `STX_NEXT` and `STX_NEXT` to `ADDR_NEXT`, with `errorCount`
unchanged and no event. -/
theorem nextChar_preamble (s : CMRI) (b : Nat) :
    ((s.currentState = .START ∧ b ≠ ATTN) ∨ (s.currentState = .ATTN_NEXT ∧ b ≠ ATTN) ∨
        (s.currentState = .STX_NEXT ∧ b ≠ STX) →
      (s.nextChar b).1.currentState = .START ∧
        (s.nextChar b).1.errorCount = (s.errorCount + 1) % s.uintModulus ∧
        (s.errorCount + 1 < s.uintModulus →
          (s.nextChar b).1.errorCount = s.errorCount + 1) ∧
        (s.errorCount + 1 = s.uintModulus → (s.nextChar b).1.errorCount = 0) ∧
        (s.nextChar b).2 = [] ∧
        (s.nextChar b).1.inputs = s.inputs ∧
        (s.nextChar b).1.outputs = s.outputs) ∧
      (s.currentState = .STX_NEXT →
        (s.nextChar ATTN).1.currentState = .START ∧
          (s.nextChar ATTN).1.errorCount = (s.errorCount + 1) % s.uintModulus) ∧
      (s.currentState = .START →
        (s.nextChar ATTN).1.currentState = .ATTN_NEXT ∧
          (s.nextChar ATTN).1.errorCount = s.errorCount ∧ (s.nextChar ATTN).2 = []) ∧
      (s.currentState = .ATTN_NEXT →
        (s.nextChar ATTN).1.currentState = .STX_NEXT ∧
          (s.nextChar ATTN).1.errorCount = s.errorCount ∧ (s.nextChar ATTN).2 = []) ∧
      (s.currentState = .STX_NEXT →
        (s.nextChar STX).1.currentState = .ADDR_NEXT ∧
          (s.nextChar STX).1.errorCount = s.errorCount ∧ (s.nextChar STX).2 = []) := by
  have herr : (s.currentState = .START ∧ b ≠ ATTN) ∨ (s.currentState = .ATTN_NEXT ∧ b ≠ ATTN) ∨
        (s.currentState = .STX_NEXT ∧ b ≠ STX) →
      (s.nextChar b).1.currentState = .START ∧
        (s.nextChar b).1.errorCount = (s.errorCount + 1) % s.uintModulus ∧
        (s.nextChar b).2 = [] ∧
        (s.nextChar b).1.inputs = s.inputs ∧
        (s.nextChar b).1.outputs = s.outputs := by
    cases s
    rintro (⟨h, hb⟩ | ⟨h, hb⟩ | ⟨h, hb⟩) <;> simp only at h <;> subst h <;>
      simp [nextChar, changeState, resetMessage, error, hb]
  refine ⟨?_, ?_, ?_, ?_, ?_⟩
  · intro h
    obtain ⟨h1, h2, h3, h4, h5⟩ := herr h
    refine ⟨h1, h2, ?_, ?_, h3, h4, h5⟩
    · intro hlt
      rw [h2, Nat.mod_eq_of_lt hlt]
    · intro heq
      rw [h2, heq, Nat.mod_self]
  · intro h
    cases s
    simp only at h
    subst h
    simp [nextChar, changeState, error, ATTN, STX]
  · intro h
    cases s
    simp only at h
    subst h
    simp [nextChar, changeState, resetMessage]
  · intro h
    cases s
    simp only at h
    subst h
    simp [nextChar, changeState]
  · intro h
    cases s
    simp only at h
    subst h
    simp [nextChar, changeState]

theorem nextChar_preamble_witness :
    ((exampleNode.currentState = .START ∧ 0x02 ≠ ATTN) ∧
        exampleNode.errorCount + 1 < exampleNode.uintModulus) ∧
      (exampleNode.nextChar 0x02).1.currentState = .START ∧
      (exampleNode.nextChar 0x02).1.errorCount = exampleNode.errorCount + 1 ∧
      (exampleNode.nextChar 0x02).2 = [] ∧
      ((exampleNode.nextChar ATTN).1.currentState = .ATTN_NEXT ∧
        (exampleNode.nextChar ATTN).1.errorCount = exampleNode.errorCount ∧
        (exampleNode.nextChar ATTN).2 = []) :=
  ⟨⟨⟨rfl, by decide⟩, by decide⟩,
    ((nextChar_preamble exampleNode 0x02).1 (Or.inl ⟨rfl, by decide⟩)).1,
    ((nextChar_preamble exampleNode 0x02).1 (Or.inl ⟨rfl, by decide⟩)).2.2.1 (by decide),
    ((nextChar_preamble exampleNode 0x02).1 (Or.inl ⟨rfl, by decide⟩)).2.2.2.2.1,
    (nextChar_preamble exampleNode 0x02).2.2.1 rfl⟩

/-! ## Resynchronization and overflow -/

theorem errorCount_feed_frame (s : CMRI) (D T : Nat) (toks : List Token)
    (hs : s.currentState = .START) (hv : ∀ tok ∈ toks, tok.valid = true)
    (hlen : (unescaped toks).length ≤ MAX_MESG_LEN) :
    (feed s (frame D T toks)).1.errorCount = s.errorCount ∧
      (feed s (frame D T toks)).1.currentState = .START := by
  have hl : toks.length ≤ MAX_MESG_LEN := by simpa [unescaped] using hlen
  rw [feed_frame s D T toks hs hl hv]
  exact ⟨(processMessage_errorCount _).1, rfl⟩

theorem nextChar_START_garbage (s : CMRI) (g : Nat) (hs : s.currentState = .START)
    (hg : g ≠ ATTN) :
    s.nextChar g
      = ({ s with
            charCount := (s.charCount + 1) % s.ulongModulus
            errorCount := (s.errorCount + 1) % s.uintModulus
            messageType := 0
            messageDest := -1
            messageLength := 0 }, []) := by
  cases s
  simp only at hs
  subst hs
  simp [nextChar, changeState, resetMessage, error, hg]

/-- C13, counterexample: the garbage byte `0xFF` before the valid frame
`FF FF 02 46 50 03` makes the parser lose the frame: `processMessage` is never called,
and `errorCount` grows by five, not one. -/
theorem resync_fails_after_attn :
    dispatches (feed exampleNode (0xFF :: frame 70 0x50 [])).2 = [] ∧
      (feed exampleNode (0xFF :: frame 70 0x50 [])).1.errorCount
        = exampleNode.errorCount + 5 := by
  decide

/-- C13, amended: resynchronization after one garbage byte other than `ATTN`.  From
`START`, for every byte `g ≠ 0xFF` and every valid frame with at most `MAX_MESG_LEN`
unescaped payload bytes, feeding `g` and then the frame causes exactly one call of
`processMessage`, with the destination, type and unescaped payload of the frame, and
`errorCount` is incremented once in `unsigned int` arithmetic, to
`(errorCount + 1) mod uintModulus`: it grows by exactly one when it was below its
largest value. -/
theorem resync_after_garbage (s : CMRI) (g D T : Nat) (toks : List Token)
    (hs : s.currentState = .START) (hbuf : s.buf.length = MAX_MESG_LEN) (hg : g ≠ ATTN)
    (hD : D < 256) (hv : ∀ tok ∈ toks, tok.valid = true)
    (hlen : (unescaped toks).length ≤ MAX_MESG_LEN) :
    (∃ buf, dispatches (feed s (g :: frame D T toks)).2
          = [Event.dispatch D T (unescaped toks).length buf] ∧
        buf.take (unescaped toks).length = unescaped toks) ∧
      (feed s (g :: frame D T toks)).1.errorCount = (s.errorCount + 1) % s.uintModulus ∧
      (s.errorCount + 1 < s.uintModulus →
        (feed s (g :: frame D T toks)).1.errorCount = s.errorCount + 1) ∧
      (feed s (g :: frame D T toks)).1.currentState = .START := by
  have h1 := nextChar_START_garbage s g hs hg
  have e : feed s (g :: frame D T toks)
      = ((feed (s.nextChar g).1 (frame D T toks)).1,
          (s.nextChar g).2 ++ (feed (s.nextChar g).1 (frame D T toks)).2) := rfl
  rw [e, h1]
  dsimp only
  have hs1 : ({ s with
      charCount := (s.charCount + 1) % s.ulongModulus
      errorCount := (s.errorCount + 1) % s.uintModulus
      messageType := 0
      messageDest := -1
      messageLength := 0 } : CMRI).currentState = .START := hs
  have he := (errorCount_feed_frame _ D T toks hs1 hv hlen).1
  refine ⟨?_, he, ?_, ?_⟩
  · simpa using dispatches_feed_frame _ D T toks hs1 hbuf hD hv hlen
  · intro hlt
    rw [he]
    exact Nat.mod_eq_of_lt hlt
  · exact (errorCount_feed_frame _ D T toks hs1 hv hlen).2

theorem resync_after_garbage_witness :
    (exampleNode.currentState = .START ∧ exampleNode.buf.length = MAX_MESG_LEN ∧
        0x02 ≠ ATTN ∧ 70 < 256 ∧
        (∀ tok ∈ [Token.plain 0xFF, Token.escaped 0x10], tok.valid = true) ∧
        (unescaped [Token.plain 0xFF, Token.escaped 0x10]).length ≤ MAX_MESG_LEN ∧
        exampleNode.errorCount + 1 < exampleNode.uintModulus) ∧
      ((∃ buf, dispatches (feed exampleNode
              (0x02 :: frame 70 0x54 [Token.plain 0xFF, Token.escaped 0x10])).2
            = [Event.dispatch 70 0x54
                (unescaped [Token.plain 0xFF, Token.escaped 0x10]).length buf] ∧
          buf.take (unescaped [Token.plain 0xFF, Token.escaped 0x10]).length
            = unescaped [Token.plain 0xFF, Token.escaped 0x10]) ∧
        (feed exampleNode (0x02 :: frame 70 0x54 [Token.plain 0xFF, Token.escaped 0x10])).1.errorCount
          = exampleNode.errorCount + 1 ∧
        (feed exampleNode (0x02 :: frame 70 0x54 [Token.plain 0xFF, Token.escaped 0x10])).1.currentState
          = .START) :=
  ⟨⟨rfl, by decide, by decide, by decide, by decide, by decide, by decide⟩,
    (resync_after_garbage exampleNode 0x02 70 0x54 [Token.plain 0xFF, Token.escaped 0x10]
      rfl (by decide) (by decide) (by decide) (by decide) (by decide)).1,
    (resync_after_garbage exampleNode 0x02 70 0x54 [Token.plain 0xFF, Token.escaped 0x10]
      rfl (by decide) (by decide) (by decide) (by decide) (by decide)).2.2.1 (by decide),
    (resync_after_garbage exampleNode 0x02 70 0x54 [Token.plain 0xFF, Token.escaped 0x10]
      rfl (by decide) (by decide) (by decide) (by decide) (by decide)).2.2.2⟩

theorem feed_overflow_tail (m : CMRI) (b : Nat) (tail : List Nat)
    (hm : m.currentState = .MAYBE_DATA_NEXT) (hfull : m.messageLength = MAX_MESG_LEN)
    (ht : (tail = [b] ∧ b ≠ ETX ∧ b ≠ DLE) ∨ tail = [DLE, b]) :
    feed m tail
      = ({ m with
            charCount := countUp m.ulongModulus m.charCount tail.length
            errorCount := (m.errorCount + 1) % m.uintModulus
            currentState := .START }, []) := by
  cases m
  simp only at hm hfull
  subst hm hfull
  rcases ht with ⟨rfl, h1, h2⟩ | rfl
  · simp [feed, nextChar, changeState, addCharToMessage, error, h1, h2, countUp]
  · simp [feed, nextChar, changeState, addCharToMessage, error, DLE, ETX, countUp]

/-- C14, counterexample: `errorCount` holds the largest 16-bit `unsigned int`, 65535,
when a frame with 72 payload bytes is followed by a 73rd data byte.  The overflow
leaves `errorCount = 0`: the counter has wrapped, it has not grown by one. -/
theorem errorCount_wraps_on_overflow :
    exampleErrorMax.currentState = .START ∧
      exampleErrorMax.errorCount = 65535 ∧
      (unescaped fullPayload).length = MAX_MESG_LEN ∧
      (feed exampleErrorMax
          (([0xFF, 0xFF, 0x02, 70, 0x54] ++ wirePayload fullPayload) ++ [0x41])).1.errorCount
        = 0 := by
  refine ⟨rfl, rfl, by decide, ?_⟩
  have hp := feed_payload exampleErrorMax 70 0x54 fullPayload rfl (by decide) (by decide)
  have ho := feed_overflow_tail (afterPayload exampleErrorMax 70 0x54 fullPayload) 0x41 [0x41]
    rfl (by decide) (Or.inl ⟨rfl, by decide, by decide⟩)
  rw [feed_append exampleErrorMax ([0xFF, 0xFF, 0x02, 70, 0x54] ++ wirePayload fullPayload)
    [0x41], hp]
  dsimp only
  rw [ho]
  decide

/-- C14, amended: overflow.  From `START`, after a preamble, a destination byte, a type
byte and payload tokens that have stored exactly `MAX_MESG_LEN` data bytes, the next
data byte (a byte other than `ETX` and `DLE`, or any byte after a `DLE`) is not stored:
the buffer and `messageLength` stay as they were, there is no event, the parser is in
`START` and `errorCount` has been incremented once in `unsigned int` arithmetic, to
`(errorCount + 1) mod uintModulus`: it has grown by exactly one when it was below its
largest value.  A valid frame fed from the resulting state causes exactly one call of
`processMessage`, with its own destination, type and payload. -/
theorem overflow_resets (s : CMRI) (D T b : Nat) (toks : List Token) (tail : List Nat)
    (hs : s.currentState = .START) (hbuf : s.buf.length = MAX_MESG_LEN)
    (hv : ∀ tok ∈ toks, tok.valid = true)
    (hfull : (unescaped toks).length = MAX_MESG_LEN)
    (ht : (tail = [b] ∧ b ≠ ETX ∧ b ≠ DLE) ∨ tail = [DLE, b]) :
    ((feed s ([0xFF, 0xFF, 0x02, D, T] ++ wirePayload toks)).1.messageLength = MAX_MESG_LEN ∧
        (feed s ([0xFF, 0xFF, 0x02, D, T] ++ wirePayload toks)).1.buf.take MAX_MESG_LEN
          = unescaped toks) ∧
      (feed s (([0xFF, 0xFF, 0x02, D, T] ++ wirePayload toks) ++ tail)).2 = [] ∧
      (feed s (([0xFF, 0xFF, 0x02, D, T] ++ wirePayload toks) ++ tail)).1.buf
        = (feed s ([0xFF, 0xFF, 0x02, D, T] ++ wirePayload toks)).1.buf ∧
      (feed s (([0xFF, 0xFF, 0x02, D, T] ++ wirePayload toks) ++ tail)).1.messageLength
        = (feed s ([0xFF, 0xFF, 0x02, D, T] ++ wirePayload toks)).1.messageLength ∧
      (feed s (([0xFF, 0xFF, 0x02, D, T] ++ wirePayload toks) ++ tail)).1.currentState
        = .START ∧
      (feed s (([0xFF, 0xFF, 0x02, D, T] ++ wirePayload toks) ++ tail)).1.errorCount
        = (s.errorCount + 1) % s.uintModulus ∧
      (s.errorCount + 1 < s.uintModulus →
        (feed s (([0xFF, 0xFF, 0x02, D, T] ++ wirePayload toks) ++ tail)).1.errorCount
          = s.errorCount + 1) ∧
      (∀ (D2 T2 : Nat) (toks2 : List Token), D2 < 256 →
        (∀ tok ∈ toks2, tok.valid = true) → (unescaped toks2).length ≤ MAX_MESG_LEN →
        ∃ buf, dispatches (feed
              (feed s (([0xFF, 0xFF, 0x02, D, T] ++ wirePayload toks) ++ tail)).1
              (frame D2 T2 toks2)).2
            = [Event.dispatch D2 T2 (unescaped toks2).length buf] ∧
          buf.take (unescaped toks2).length = unescaped toks2) := by
  have hl : toks.length = MAX_MESG_LEN := by simpa [unescaped] using hfull
  have hp := feed_payload s D T toks hs (by omega) hv
  have ho := feed_overflow_tail (afterPayload s D T toks) b tail rfl hl ht
  rw [feed_append s ([0xFF, 0xFF, 0x02, D, T] ++ wirePayload toks) tail, hp]
  dsimp only
  rw [ho]
  refine ⟨⟨hl, ?_⟩, rfl, rfl, rfl, rfl, rfl, ?_, ?_⟩
  · have := take_storeAt (unescaped toks) s.buf (by rw [hbuf, hfull])
    rw [hfull] at this
    exact this
  · intro hlt
    exact Nat.mod_eq_of_lt hlt
  · intro D2 T2 toks2 hD2 hv2 hlen2
    exact dispatches_feed_frame _ D2 T2 toks2 rfl
      (by simp only [afterPayload, length_storeAt]; exact hbuf) hD2 hv2 hlen2

theorem overflow_resets_witness :
    (exampleNode.currentState = .START ∧ exampleNode.buf.length = MAX_MESG_LEN ∧
        (∀ tok ∈ fullPayload, tok.valid = true) ∧
        (unescaped fullPayload).length = MAX_MESG_LEN ∧
        (([0x42] : List Nat) = [0x42] ∧ 0x42 ≠ ETX ∧ 0x42 ≠ DLE ∨ [0x42] = [DLE, 0x42]) ∧
        exampleNode.errorCount + 1 < exampleNode.uintModulus) ∧
      (feed exampleNode (([0xFF, 0xFF, 0x02, 70, 0x54] ++ wirePayload fullPayload)
          ++ [0x42])).2 = [] ∧
      (feed exampleNode (([0xFF, 0xFF, 0x02, 70, 0x54] ++ wirePayload fullPayload)
          ++ [0x42])).1.currentState = .START ∧
      (feed exampleNode (([0xFF, 0xFF, 0x02, 70, 0x54] ++ wirePayload fullPayload)
          ++ [0x42])).1.errorCount = exampleNode.errorCount + 1 :=
  ⟨⟨rfl, by decide, by decide, by decide, Or.inl ⟨rfl, by decide, by decide⟩, by decide⟩,
    (overflow_resets exampleNode 70 0x54 0x42 fullPayload [0x42] rfl (by decide) (by decide)
      (by decide) (Or.inl ⟨rfl, by decide, by decide⟩)).2.1,
    (overflow_resets exampleNode 70 0x54 0x42 fullPayload [0x42] rfl (by decide) (by decide)
      (by decide) (Or.inl ⟨rfl, by decide, by decide⟩)).2.2.2.2.1,
    (overflow_resets exampleNode 70 0x54 0x42 fullPayload [0x42] rfl (by decide) (by decide)
      (by decide) (Or.inl ⟨rfl, by decide, by decide⟩)).2.2.2.2.2.2.1 (by decide)⟩

/-! ## Poll-inputs -/

theorem foldl_set_eq (h : Nat → Bool) (bank : List Bool) (k : Nat) (hk : k ≤ bank.length) :
    (List.range k).foldl (fun bk i => bk.set i (h i)) bank
      = (List.range k).map h ++ bank.drop k := by
  induction k with
  | zero => simp
  | succ k ih =>
    rw [List.range_succ, List.foldl_append, ih (by omega)]
    simp only [List.foldl_cons, List.foldl_nil]
    rw [set_map_append_drop h bank k _ (by omega)]
    simp

theorem getD_map_range (q : Nat → Bool) (n i : Nat) (h : i < n) :
    ((List.range n).map q).getD i false = q i := by
  simp [List.getD_eq_getElem?_getD, List.getElem?_range h]

theorem foldl_setBit_inv (q : Nat → Bool) (buf : List Nat) (k : Nat)
    (hbuf : MAX_MESG_LEN ≤ buf.length) :
    ((List.range k).foldl (fun bf i => setBit bf MAX_MESG_LEN i (q i)) buf).length
        = buf.length ∧
      ∀ i, i < k → i / 8 < MAX_MESG_LEN →
        getBit ((List.range k).foldl (fun bf i => setBit bf MAX_MESG_LEN i (q i)) buf)
          MAX_MESG_LEN i = q i := by
  induction k with
  | zero => exact ⟨rfl, fun i hi => absurd hi (Nat.not_lt_zero i)⟩
  | succ k ih =>
    rw [List.range_succ, List.foldl_append]
    simp only [List.foldl_cons, List.foldl_nil]
    refine ⟨by rw [length_setBit, ih.1], ?_⟩
    intro i hi h8
    by_cases e : i = k
    · subst e
      exact getBit_setBit_self _ MAX_MESG_LEN i (q i) (by rw [ih.1]; exact hbuf) h8
    · rw [getBit_setBit_ne _ MAX_MESG_LEN k i (q k) e]
      exact ih.2 i (by omega) h8

theorem getBit_take (l : List Nat) (m L i : Nat) (hi : i / 8 < m) (hL : i / 8 < L) :
    getBit (l.take m) m i = getBit l L i := by
  rw [getBit_eq_testBit, getBit_eq_testBit]
  simp [hi, hL, List.getD_eq_getElem?_getD, List.getElem?_take_of_lt hi]

theorem pollInputs_eq (s : CMRI) (q : Nat → Bool) (bank : List Bool)
    (hq : s.inputHandler = some q) (hb : s.inputs = some bank)
    (hlen : bank.length = s.numInputs) (hn : s.numInputs < 65536) :
    s.pollInputs
      = if s.numInputs / 8 + 1 < MAX_MESG_LEN then
          ({ s with
              inputs := some ((List.range s.numInputs).map q)
              buf := s.pollBuffer q
              messageType := 0x52
              messageLength := s.numInputs / 8 + 1 },
            (List.range s.numInputs).map (fun i => Event.inputCall i (q i))
              ++ ({ s with
                    inputs := some ((List.range s.numInputs).map q)
                    buf := s.pollBuffer q
                    messageType := 0x52
                    messageLength := s.numInputs / 8 + 1 } : CMRI).sendMessage)
        else
          ({ s with inputs := some ((List.range s.numInputs).map q) },
            (List.range s.numInputs).map (fun i => Event.inputCall i (q i))) := by
  have hbank : (List.range s.numInputs).foldl (fun bk i => bk.set i (q i)) bank
      = (List.range s.numInputs).map q := by
    rw [foldl_set_eq q bank s.numInputs (by omega), List.drop_eq_nil_of_le (by omega)]
    simp
  have hmod : (s.numInputs / 8 + 1) % 65536 = s.numInputs / 8 + 1 :=
    Nat.mod_eq_of_lt (by omega)
  have hfold : (List.range s.numInputs).foldl
        (fun bf i => setBit bf MAX_MESG_LEN (i % 65536)
          (((List.range s.numInputs).map q).getD i false)) s.buf
      = s.pollBuffer q := by
    unfold pollBuffer
    apply List.foldl_ext
    intro bf i hi
    have hi' : i < s.numInputs := List.mem_range.mp hi
    rw [Nat.mod_eq_of_lt (by omega), getD_map_range q _ i hi']
  unfold pollInputs
  rw [hq, hb]
  simp only [hbank, hmod, hfold]

theorem processMessage_poll (s : CMRI) (hd : s.messageDest = (s.nodeId : Int))
    (ht : s.messageType = 0x50) :
    s.processMessage
      = ((({ s with
              messagesSeen := (s.messagesSeen + 1) % s.ulongModulus
              messagesProcessed := (s.messagesProcessed + 1) % s.ulongModulus } : CMRI).pollInputs).1,
          Event.dispatch s.messageDest s.messageType s.messageLength s.buf ::
            (({ s with
                messagesSeen := (s.messagesSeen + 1) % s.ulongModulus
                messagesProcessed := (s.messagesProcessed + 1) % s.ulongModulus } : CMRI).pollInputs).2) := by
  simp [processMessage, isForMe, hd, ht]

/-- C11: poll response.  Let the node hold a P message addressed to it, with an input
bank of `numInputs` lines and a query callback `q`.  `processMessage` calls `q i` once
for each `i < numInputs` in ascending order and stores the results in the bank.  If
`numInputs / 8 + 1 < MAX_MESG_LEN` it then writes exactly one frame: the encoding,
which is what `sendMessage` writes, of a message of type R (`0x52`) from `nodeId` with a
payload of exactly `numInputs / 8 + 1` bytes whose bit `i` is `q i` for every
`i < numInputs`.  Otherwise it writes nothing. -/
theorem poll_response (s : CMRI) (q : Nat → Bool) (bank : List Bool)
    (hq : s.inputHandler = some q) (hb : s.inputs = some bank)
    (hlen : bank.length = s.numInputs) (hn : s.numInputs < 65536)
    (hbuf : s.buf.length = MAX_MESG_LEN)
    (hd : s.messageDest = (s.nodeId : Int)) (ht : s.messageType = 0x50) :
    s.processMessage.1.inputs = some ((List.range s.numInputs).map q) ∧
      (s.numInputs / 8 + 1 < MAX_MESG_LEN →
        ∃ payload, payload.length = s.numInputs / 8 + 1 ∧
          (∀ i, i < s.numInputs → getBit payload (s.numInputs / 8 + 1) i = q i) ∧
          s.processMessage.2
            = Event.dispatch s.messageDest s.messageType s.messageLength s.buf ::
                ((List.range s.numInputs).map (fun i => Event.inputCall i (q i))
                  ++ (encodeSpec s.nodeId 0x52 payload).map Event.write) ∧
          s.processMessage.1.sendMessage = (encodeSpec s.nodeId 0x52 payload).map Event.write) ∧
      (¬ s.numInputs / 8 + 1 < MAX_MESG_LEN →
        s.processMessage.2
          = Event.dispatch s.messageDest s.messageType s.messageLength s.buf ::
              (List.range s.numInputs).map (fun i => Event.inputCall i (q i))) := by
  have hinv := foldl_setBit_inv q s.buf s.numInputs (by rw [hbuf])
  have hpl : (s.pollBuffer q).length = MAX_MESG_LEN := by
    rw [pollBuffer, hinv.1, hbuf]
  have hpb : ({ s with
      messagesSeen := (s.messagesSeen + 1) % s.ulongModulus
      messagesProcessed := (s.messagesProcessed + 1) % s.ulongModulus } : CMRI).pollBuffer q = s.pollBuffer q := rfl
  rw [processMessage_poll s hd ht,
    pollInputs_eq { s with
      messagesSeen := (s.messagesSeen + 1) % s.ulongModulus
      messagesProcessed := (s.messagesProcessed + 1) % s.ulongModulus } q bank hq hb hlen hn, hpb]
  dsimp only
  by_cases hg : s.numInputs / 8 + 1 < MAX_MESG_LEN
  · simp only [hg, if_true, not_true_eq_false, false_implies, and_true, true_implies]
    refine ⟨trivial, (s.pollBuffer q).take (s.numInputs / 8 + 1), ?_, ?_, ?_, ?_⟩
    · rw [List.length_take, hpl]; omega
    · intro i hi
      have h8 : i / 8 < s.numInputs / 8 + 1 := by omega
      rw [getBit_take (s.pollBuffer q) _ MAX_MESG_LEN i h8 (by omega)]
      exact hinv.2 i hi (by omega)
    · rw [sendMessage, sendBytes_eq_encodeSpec _ (by dsimp only; rw [hpl]; omega)]
    · rw [sendMessage, sendBytes_eq_encodeSpec _ (by dsimp only; rw [hpl]; omega)]
  · simp only [hg, if_false, not_false_eq_true, false_implies, true_implies, and_true]

theorem poll_response_witness :
    (exampleInputs.inputHandler = some (fun i => i % 3 == 0) ∧
        exampleInputs.inputs = some (List.replicate 10 false) ∧
        (List.replicate 10 false).length = exampleInputs.numInputs ∧
        exampleInputs.numInputs < 65536 ∧
        exampleInputs.buf.length = MAX_MESG_LEN ∧
        exampleInputs.messageDest = (exampleInputs.nodeId : Int) ∧
        exampleInputs.messageType = 0x50 ∧
        exampleInputs.numInputs / 8 + 1 < MAX_MESG_LEN) ∧
      exampleInputs.processMessage.1.inputs
        = some [true, false, false, true, false, false, true, false, false, true] ∧
      ∃ payload, payload.length = exampleInputs.numInputs / 8 + 1 ∧
        (∀ i, i < exampleInputs.numInputs →
          getBit payload (exampleInputs.numInputs / 8 + 1) i = (i % 3 == 0)) ∧
        exampleInputs.processMessage.2
          = Event.dispatch exampleInputs.messageDest exampleInputs.messageType
                exampleInputs.messageLength exampleInputs.buf ::
              ((List.range exampleInputs.numInputs).map
                  (fun i => Event.inputCall i (i % 3 == 0))
                ++ (encodeSpec exampleInputs.nodeId 0x52 payload).map Event.write) ∧
        exampleInputs.processMessage.1.sendMessage
          = (encodeSpec exampleInputs.nodeId 0x52 payload).map Event.write :=
  ⟨⟨rfl, rfl, rfl, by decide, by decide, by decide, rfl, by decide⟩,
    (poll_response exampleInputs (fun i => i % 3 == 0) (List.replicate 10 false)
      rfl rfl rfl (by decide) (by decide) (by decide) rfl).1,
    (poll_response exampleInputs (fun i => i % 3 == 0) (List.replicate 10 false)
      rfl rfl rfl (by decide) (by decide) (by decide) rfl).2.1 (by decide)⟩

/-! ## The payload length invariant -/

theorem length_foldl_setBit (L : Nat) (f : Nat → Nat) (v : Nat → Bool) (l : List Nat)
    (buf : List Nat) :
    (l.foldl (fun bf i => setBit bf L (f i) (v i)) buf).length = buf.length := by
  induction l generalizing buf with
  | nil => rfl
  | cons i t ih => rw [List.foldl_cons, ih, length_setBit]

theorem pollInputs_inv (s : CMRI) (h : s.messageLength ≤ MAX_MESG_LEN) :
    s.pollInputs.1.messageLength ≤ MAX_MESG_LEN ∧
      s.pollInputs.1.buf.length = s.buf.length := by
  unfold pollInputs
  split
  · dsimp only
    split
    · rename_i hg
      exact ⟨Nat.le_of_lt hg, length_foldl_setBit _ _ _ _ _⟩
    · exact ⟨h, rfl⟩
  · exact ⟨h, rfl⟩

theorem processMessage_inv (s : CMRI) (h : s.messageLength ≤ MAX_MESG_LEN) :
    s.processMessage.1.messageLength ≤ MAX_MESG_LEN ∧
      s.processMessage.1.buf.length = s.buf.length := by
  unfold processMessage
  dsimp only
  split
  · exact ⟨h, rfl⟩
  · split
    · rw [processInit_fst]; exact ⟨h, rfl⟩
    · split
      · rw [processOutputs_fst]; exact ⟨h, rfl⟩
      · split
        · exact pollInputs_inv _ h
        · exact ⟨h, rfl⟩

theorem addCharToMessage_inv (s : CMRI) (b : Nat) (h : s.messageLength ≤ MAX_MESG_LEN) :
    (s.addCharToMessage b).1.messageLength ≤ MAX_MESG_LEN ∧
      (s.addCharToMessage b).1.buf.length = s.buf.length := by
  unfold addCharToMessage
  split
  · exact ⟨h, rfl⟩
  · rename_i hlt
    refine ⟨?_, by simp⟩
    show s.messageLength + 1 ≤ MAX_MESG_LEN
    omega

theorem nextChar_inv (s : CMRI) (b : Nat) (h : s.messageLength ≤ MAX_MESG_LEN) :
    (s.nextChar b).1.messageLength ≤ MAX_MESG_LEN ∧
      (s.nextChar b).1.buf.length = s.buf.length := by
  unfold nextChar
  dsimp only
  split
  · split <;> exact ⟨Nat.zero_le _, rfl⟩
  · split <;> exact ⟨h, rfl⟩
  · split <;> exact ⟨h, rfl⟩
  · exact ⟨h, rfl⟩
  · exact ⟨h, rfl⟩
  · split
    · exact processMessage_inv _ h
    · split
      · exact ⟨h, rfl⟩
      · have := addCharToMessage_inv { s with charCount := (s.charCount + 1) % s.ulongModulus } b h
        split <;> exact this
  · have := addCharToMessage_inv { s with charCount := (s.charCount + 1) % s.ulongModulus } b h
    split <;> exact this

theorem act_inv (s : CMRI) (a : Action)
    (h : s.messageLength ≤ MAX_MESG_LEN ∧ s.buf.length = MAX_MESG_LEN) :
    (s.act a).messageLength ≤ MAX_MESG_LEN ∧ (s.act a).buf.length = MAX_MESG_LEN := by
  cases a with
  | byte b =>
    have := nextChar_inv s b h.1
    exact ⟨this.1, this.2.trans h.2⟩
  | setInit ih => exact h
  | setInput n q =>
    simp only [act, setInputHandler]
    split <;> exact h
  | setOutput n p o =>
    simp only [act, setOutputHandler]
    split <;> exact h

theorem run_inv (acts : List Action) (s : CMRI)
    (h : s.messageLength ≤ MAX_MESG_LEN ∧ s.buf.length = MAX_MESG_LEN) :
    (s.run acts).messageLength ≤ MAX_MESG_LEN ∧ (s.run acts).buf.length = MAX_MESG_LEN := by
  induction acts generalizing s with
  | nil => exact h
  | cons a t ih => exact ih (s.act a) (act_inv s a h)

/-- C17: payload length invariant.  In every state reached from a freshly constructed
object (with its 72-byte buffer) by any sequence of fed bytes and registration calls,
`messageLength ≤ MAX_MESG_LEN` (it is a natural number here, so `0 ≤ messageLength`
holds as well) and the buffer still has `MAX_MESG_LEN` bytes; hence the index of every
buffer access is inside the buffer: `addCharToMessage` stores at `messageLength` only
when it succeeds, `sendMessage` reads the indices below `messageLength`, `getBit` reads
`buf[i / 8]` only when `i / 8` is below the length it is given (`messageLength`), and
`setBit` writes `buf[i / 8]` only when `i / 8 < MAX_MESG_LEN`.  And `addCharToMessage`
called with `messageLength = MAX_MESG_LEN` returns false and leaves the object, so
`buf`, `messageLength`, `messageDest` and `messageType`, unchanged. -/
theorem messageLength_invariant (n : Nat) (ih : Bool) (ni no : Nat) (bf : List Nat)
    (md : Int) (mt : Nat) (hbf : bf.length = MAX_MESG_LEN) (acts : List Action) :
    ((construct n ih ni no bf md mt).run acts).messageLength ≤ MAX_MESG_LEN ∧
      ((construct n ih ni no bf md mt).run acts).buf.length = MAX_MESG_LEN ∧
      (∀ b, (((construct n ih ni no bf md mt).run acts).addCharToMessage b).2 = true →
        ((construct n ih ni no bf md mt).run acts).messageLength
          < ((construct n ih ni no bf md mt).run acts).buf.length) ∧
      (∀ i, i < ((construct n ih ni no bf md mt).run acts).messageLength →
        i < ((construct n ih ni no bf md mt).run acts).buf.length) ∧
      (∀ i, i / 8 < ((construct n ih ni no bf md mt).run acts).messageLength % 65536 →
        i / 8 < ((construct n ih ni no bf md mt).run acts).buf.length) ∧
      (∀ i, i / 8 < MAX_MESG_LEN →
        i / 8 < ((construct n ih ni no bf md mt).run acts).buf.length) ∧
      (∀ (s : CMRI) (b : Nat), s.messageLength = MAX_MESG_LEN →
        s.addCharToMessage b = (s, false)) := by
  have h := run_inv acts (construct n ih ni no bf md mt) ⟨Nat.zero_le _, hbf⟩
  refine ⟨h.1, h.2, ?_, ?_, ?_, ?_, ?_⟩
  · intro b hb
    rw [h.2]
    by_contra hlt
    have hge : ((construct n ih ni no bf md mt).run acts).messageLength ≥ MAX_MESG_LEN := by
      omega
    simp [addCharToMessage, hge] at hb
  · intro i hi
    rw [h.2]
    omega
  · intro i hi
    rw [h.2]
    have := Nat.mod_le ((construct n ih ni no bf md mt).run acts).messageLength 65536
    omega
  · intro i hi
    rw [h.2]
    exact hi
  · intro s b hs
    simp [addCharToMessage, hs]

theorem messageLength_invariant_witness :
    (List.replicate 72 0xAA).length = MAX_MESG_LEN ∧
      ((construct 5 false 0 0 (List.replicate 72 0xAA) 0 0).run exampleRun).messageLength
        ≤ MAX_MESG_LEN ∧
      ((construct 5 false 0 0 (List.replicate 72 0xAA) 0 0).run exampleRun).buf.length
        = MAX_MESG_LEN ∧
      exampleFull.messageLength = MAX_MESG_LEN ∧
      exampleFull.addCharToMessage 0x41 = (exampleFull, false) :=
  ⟨by decide,
    (messageLength_invariant 5 false 0 0 (List.replicate 72 0xAA) 0 0 (by decide)
      exampleRun).1,
    (messageLength_invariant 5 false 0 0 (List.replicate 72 0xAA) 0 0 (by decide)
      exampleRun).2.1,
    by decide,
    (messageLength_invariant 5 false 0 0 (List.replicate 72 0xAA) 0 0 (by decide)
      exampleRun).2.2.2.2.2.2 exampleFull 0x41 (by decide)⟩

/-! ## The counters -/

theorem nextChar_ETX_counted (s : CMRI) (h : s.currentState = .MAYBE_DATA_NEXT) :
    s.nextChar ETX
      = (s.counted.processMessage.1.changeState .START ETX, s.counted.processMessage.2) := by
  cases s
  simp only at h
  subst h
  rfl

theorem processMessage_counters (s : CMRI) :
    s.processMessage.1.messagesSeen = (s.messagesSeen + 1) % s.ulongModulus ∧
      (s.processMessage.1.messagesProcessed = s.messagesProcessed ∨
        s.processMessage.1.messagesProcessed
          = (s.messagesProcessed + 1) % s.ulongModulus) ∧
      s.processMessage.1.uintModulus = s.uintModulus ∧
      s.processMessage.1.ulongModulus = s.ulongModulus := by
  unfold processMessage
  dsimp only
  split
  · exact ⟨rfl, Or.inl rfl, rfl, rfl⟩
  · split
    · rw [processInit_fst]; exact ⟨rfl, Or.inr rfl, rfl, rfl⟩
    · split
      · rw [processOutputs_fst]; exact ⟨rfl, Or.inr rfl, rfl, rfl⟩
      · split
        · rw [pollInputs_fst]; exact ⟨rfl, Or.inr rfl, rfl, rfl⟩
        · exact ⟨rfl, Or.inr rfl, rfl, rfl⟩

theorem addCharToMessage_counters (s : CMRI) (b : Nat) :
    (s.addCharToMessage b).1.charCount = s.charCount ∧
      (s.addCharToMessage b).1.messagesSeen = s.messagesSeen ∧
      (s.addCharToMessage b).1.messagesProcessed = s.messagesProcessed ∧
      (s.addCharToMessage b).1.errorCount = s.errorCount ∧
      (s.addCharToMessage b).1.uintModulus = s.uintModulus ∧
      (s.addCharToMessage b).1.ulongModulus = s.ulongModulus := by
  unfold addCharToMessage
  split <;> exact ⟨rfl, rfl, rfl, rfl, rfl, rfl⟩

theorem nextChar_counters (s : CMRI) (b : Nat) :
    (s.nextChar b).1.charCount = (s.charCount + 1) % s.ulongModulus ∧
      ((s.nextChar b).1.messagesSeen = s.messagesSeen ∧
          (s.nextChar b).1.messagesProcessed = s.messagesProcessed ∨
        (s.nextChar b).1.messagesSeen = (s.messagesSeen + 1) % s.ulongModulus ∧
          ((s.nextChar b).1.messagesProcessed = s.messagesProcessed ∨
            (s.nextChar b).1.messagesProcessed
              = (s.messagesProcessed + 1) % s.ulongModulus)) ∧
      ((s.nextChar b).1.errorCount = s.errorCount ∨
        (s.nextChar b).1.errorCount = (s.errorCount + 1) % s.uintModulus) ∧
      (s.nextChar b).1.uintModulus = s.uintModulus ∧
      (s.nextChar b).1.ulongModulus = s.ulongModulus := by
  by_cases hE : s.currentState = .MAYBE_DATA_NEXT ∧ b = ETX
  · obtain ⟨hs, rfl⟩ := hE
    rw [nextChar_ETX_counted s hs]
    have h1 := processMessage_counters s.counted
    have h2 := processMessage_errorCount s.counted
    exact ⟨h2.2.2.2, Or.inr ⟨h1.1, h1.2.1⟩, Or.inl h2.1, h1.2.2.1, h1.2.2.2⟩
  · obtain ⟨nodeId, cs, messageDest, messageType, buf, messageLength, tickCount, charCount,
      messagesSeen, messagesProcessed, errorCount, initHandler, numInputs, inputs,
      inputHandler, numOutputs, outputs, perLineOutputHandler, overallOutputHandler,
      uintModulus, ulongModulus⟩ := s
    cases cs
    · by_cases hb : b = ATTN <;> simp [nextChar, changeState, resetMessage, error, hb]
    · by_cases hb : b = ATTN <;> simp [nextChar, changeState, error, hb]
    · by_cases hb : b = STX <;> simp [nextChar, changeState, error, hb]
    · simp [nextChar, changeState]
    · simp [nextChar, changeState]
    · have hb : b ≠ ETX := fun h => hE ⟨rfl, h⟩
      by_cases hD : b = DLE
      · subst hD
        simp [nextChar, changeState, DLE, ETX]
      · by_cases hl : MAX_MESG_LEN ≤ messageLength <;>
          simp [nextChar, changeState, addCharToMessage, error, hb, hD, hl]
    · by_cases hl : MAX_MESG_LEN ≤ messageLength <;>
        simp [nextChar, changeState, addCharToMessage, error, hl]

theorem succ_mod_exact (m x : Nat) (h : m = 0 ∨ x + 1 < m) : (x + 1) % m = x + 1 := by
  rcases h with h | h
  · rw [h, Nat.mod_zero]
  · exact Nat.mod_eq_of_lt h

theorem act_moduli (s : CMRI) (a : Action) :
    (s.act a).uintModulus = s.uintModulus ∧ (s.act a).ulongModulus = s.ulongModulus := by
  cases a with
  | byte b => exact (nextChar_counters s b).2.2.2
  | setInit ih => exact ⟨rfl, rfl⟩
  | setInput n q m =>
    simp only [act, setInputHandler]
    split <;> exact ⟨rfl, rfl⟩
  | setOutput n p o m =>
    simp only [act, setOutputHandler]
    split <;> exact ⟨rfl, rfl⟩

theorem act_seen_processed (s : CMRI) (a : Action) :
    (s.act a).messagesSeen = s.messagesSeen ∧
        (s.act a).messagesProcessed = s.messagesProcessed ∨
      (s.act a).messagesSeen = (s.messagesSeen + 1) % s.ulongModulus ∧
        ((s.act a).messagesProcessed = s.messagesProcessed ∨
          (s.act a).messagesProcessed = (s.messagesProcessed + 1) % s.ulongModulus) := by
  cases a with
  | byte b => exact (nextChar_counters s b).2.1
  | setInit ih => exact Or.inl ⟨rfl, rfl⟩
  | setInput n q m =>
    simp only [act, setInputHandler]
    split <;> exact Or.inl ⟨rfl, rfl⟩
  | setOutput n p o m =>
    simp only [act, setOutputHandler]
    split <;> exact Or.inl ⟨rfl, rfl⟩

theorem run_processed_le_seen (acts : List Action) (s : CMRI) (k : Nat)
    (h : s.messagesProcessed ≤ s.messagesSeen) (hk : s.messagesSeen ≤ k)
    (hm : s.ulongModulus = 0 ∨ k + acts.length < s.ulongModulus) :
    (s.run acts).messagesProcessed ≤ (s.run acts).messagesSeen ∧
      (s.run acts).messagesSeen ≤ k + acts.length := by
  induction acts generalizing s k with
  | nil => exact ⟨h, hk⟩
  | cons a t ih =>
    have hmod := (act_moduli s a).2
    have hstep := act_seen_processed s a
    have hlen : (a :: t).length = t.length + 1 := rfl
    rw [hlen] at hm
    have e1 : (s.messagesSeen + 1) % s.ulongModulus = s.messagesSeen + 1 :=
      succ_mod_exact _ _ (by omega)
    have e2 : (s.messagesProcessed + 1) % s.ulongModulus = s.messagesProcessed + 1 :=
      succ_mod_exact _ _ (by omega)
    rw [e1, e2] at hstep
    have := ih (s.act a) (k + 1) (by omega) (by omega) (by rw [hmod]; omega)
    show ((s.act a).run t).messagesProcessed ≤ ((s.act a).run t).messagesSeen ∧
      ((s.act a).run t).messagesSeen ≤ k + (t.length + 1)
    omega

theorem setOutput_withCountersOf (s k : CMRI) (i : Nat) (v : Bool) :
    (s.withCountersOf k).setOutput i v
      = (((s.setOutput i v).1).withCountersOf k, (s.setOutput i v).2) := by
  unfold setOutput withCountersOf
  dsimp only
  split
  · split <;> rfl
  · rfl

theorem processOutputsBody_withCountersOf (s k : CMRI) (a : Bool) (e : List Event) (i : Nat) :
    processOutputsBody (s.withCountersOf k, a, e) i
      = ((processOutputsBody (s, a, e) i).1.withCountersOf k,
          (processOutputsBody (s, a, e) i).2) := by
  unfold processOutputsBody
  dsimp only
  have h1 : (s.withCountersOf k).outputAt i = s.outputAt i := rfl
  have h2 : (s.withCountersOf k).buf = s.buf := rfl
  have h3 : (s.withCountersOf k).messageLength = s.messageLength := rfl
  rw [h1, h2, h3, setOutput_withCountersOf]
  split <;> rfl

theorem foldl_processOutputsBody_withCountersOf (l : List Nat) (s k : CMRI) (a : Bool)
    (e : List Event) :
    l.foldl processOutputsBody (s.withCountersOf k, a, e)
      = ((l.foldl processOutputsBody (s, a, e)).1.withCountersOf k,
          (l.foldl processOutputsBody (s, a, e)).2) := by
  induction l generalizing s a e with
  | nil => rfl
  | cons i t ih =>
    rw [List.foldl_cons, List.foldl_cons, processOutputsBody_withCountersOf]
    exact ih _ _ _

theorem processOutputs_withCountersOf (s k : CMRI) :
    (s.withCountersOf k).processOutputs
      = (s.processOutputs.1.withCountersOf k, s.processOutputs.2) := by
  unfold processOutputs
  have h1 : (s.withCountersOf k).outputs = s.outputs := rfl
  have h2 : (s.withCountersOf k).numOutputs = s.numOutputs := rfl
  rw [h1, h2]
  split
  · rfl
  · dsimp only
    rw [foldl_processOutputsBody_withCountersOf]
    generalize (List.range s.numOutputs).foldl processOutputsBody (s, false, []) = r
    have h3 : (r.1.withCountersOf k).overallOutputHandler = r.1.overallOutputHandler := rfl
    dsimp only
    rw [h3]
    split <;> rfl

theorem pollInputs_withCountersOf (s k : CMRI) :
    (s.withCountersOf k).pollInputs
      = (s.pollInputs.1.withCountersOf k, s.pollInputs.2) := by
  unfold pollInputs
  have h1 : (s.withCountersOf k).inputs = s.inputs := rfl
  have h2 : (s.withCountersOf k).inputHandler = s.inputHandler := rfl
  rw [h1, h2]
  split
  · dsimp only
    have h3 : (s.withCountersOf k).numInputs = s.numInputs := rfl
    have h4 : (s.withCountersOf k).buf = s.buf := rfl
    rw [h3, h4]
    split <;> rfl
  · rfl

theorem processInit_withCountersOf (s k : CMRI) :
    (s.withCountersOf k).processInit
      = (s.processInit.1.withCountersOf k, s.processInit.2) := by
  unfold processInit
  have h1 : (s.withCountersOf k).initHandler = s.initHandler := rfl
  rw [h1]
  split <;> rfl

theorem processMessage_other_node (s : CMRI) (hd : s.messageDest ≠ (s.nodeId : Int)) :
    s.processMessage
      = ({ s with messagesSeen := (s.messagesSeen + 1) % s.ulongModulus },
          [Event.dispatch s.messageDest s.messageType s.messageLength s.buf]) := by
  simp [processMessage, isForMe, hd]

theorem processMessage_init (s : CMRI) (hd : s.messageDest = (s.nodeId : Int))
    (ht : s.messageType = 0x49) :
    s.processMessage
      = ((({ s with
              messagesSeen := (s.messagesSeen + 1) % s.ulongModulus
              messagesProcessed := (s.messagesProcessed + 1) % s.ulongModulus } : CMRI).processInit).1,
          Event.dispatch s.messageDest s.messageType s.messageLength s.buf ::
            (({ s with
                messagesSeen := (s.messagesSeen + 1) % s.ulongModulus
                messagesProcessed := (s.messagesProcessed + 1) % s.ulongModulus } : CMRI).processInit).2) := by
  simp [processMessage, isForMe, hd, ht]

theorem processMessage_outputs (s : CMRI) (hd : s.messageDest = (s.nodeId : Int))
    (ht : s.messageType = 0x54) :
    s.processMessage
      = ((({ s with
              messagesSeen := (s.messagesSeen + 1) % s.ulongModulus
              messagesProcessed := (s.messagesProcessed + 1) % s.ulongModulus } : CMRI).processOutputs).1,
          Event.dispatch s.messageDest s.messageType s.messageLength s.buf ::
            (({ s with
                messagesSeen := (s.messagesSeen + 1) % s.ulongModulus
                messagesProcessed := (s.messagesProcessed + 1) % s.ulongModulus } : CMRI).processOutputs).2) := by
  simp [processMessage, isForMe, hd, ht]

theorem processMessage_other_type (s : CMRI) (hd : s.messageDest = (s.nodeId : Int))
    (hI : s.messageType ≠ 0x49) (hT : s.messageType ≠ 0x54) (hP : s.messageType ≠ 0x50) :
    s.processMessage
      = ({ s with
            messagesSeen := (s.messagesSeen + 1) % s.ulongModulus
            messagesProcessed := (s.messagesProcessed + 1) % s.ulongModulus },
          [Event.dispatch s.messageDest s.messageType s.messageLength s.buf]) := by
  simp [processMessage, isForMe, hd, hI, hT, hP]

theorem processMessage_withCountersOf (s k : CMRI) :
    ∃ k1, (s.withCountersOf k).processMessage
      = (s.processMessage.1.withCountersOf k1, s.processMessage.2) := by
  by_cases hd : s.messageDest = (s.nodeId : Int)
  · refine ⟨{ k with
      messagesSeen := (k.messagesSeen + 1) % s.ulongModulus
      messagesProcessed := (k.messagesProcessed + 1) % s.ulongModulus }, ?_⟩
    by_cases hI : s.messageType = 0x49
    · rw [processMessage_init (s.withCountersOf k) hd hI, processMessage_init s hd hI]
      exact congrArg (fun r : CMRI × List Event =>
          (r.1, Event.dispatch s.messageDest s.messageType s.messageLength s.buf :: r.2))
        (processInit_withCountersOf { s with
            messagesSeen := (s.messagesSeen + 1) % s.ulongModulus
            messagesProcessed := (s.messagesProcessed + 1) % s.ulongModulus }
          { k with
            messagesSeen := (k.messagesSeen + 1) % s.ulongModulus
            messagesProcessed := (k.messagesProcessed + 1) % s.ulongModulus })
    · by_cases hT : s.messageType = 0x54
      · rw [processMessage_outputs (s.withCountersOf k) hd hT, processMessage_outputs s hd hT]
        exact congrArg (fun r : CMRI × List Event =>
            (r.1, Event.dispatch s.messageDest s.messageType s.messageLength s.buf :: r.2))
          (processOutputs_withCountersOf { s with
              messagesSeen := (s.messagesSeen + 1) % s.ulongModulus
              messagesProcessed := (s.messagesProcessed + 1) % s.ulongModulus }
            { k with
              messagesSeen := (k.messagesSeen + 1) % s.ulongModulus
              messagesProcessed := (k.messagesProcessed + 1) % s.ulongModulus })
      · by_cases hP : s.messageType = 0x50
        · rw [processMessage_poll (s.withCountersOf k) hd hP, processMessage_poll s hd hP]
          exact congrArg (fun r : CMRI × List Event =>
              (r.1, Event.dispatch s.messageDest s.messageType s.messageLength s.buf :: r.2))
            (pollInputs_withCountersOf { s with
                messagesSeen := (s.messagesSeen + 1) % s.ulongModulus
                messagesProcessed := (s.messagesProcessed + 1) % s.ulongModulus }
              { k with
                messagesSeen := (k.messagesSeen + 1) % s.ulongModulus
                messagesProcessed := (k.messagesProcessed + 1) % s.ulongModulus })
        · rw [processMessage_other_type (s.withCountersOf k) hd hI hT hP,
            processMessage_other_type s hd hI hT hP]
          rfl
  · refine ⟨{ k with messagesSeen := (k.messagesSeen + 1) % s.ulongModulus }, ?_⟩
    rw [processMessage_other_node (s.withCountersOf k) hd, processMessage_other_node s hd]
    rfl

theorem nextChar_ETX (s : CMRI) (h : s.currentState = .MAYBE_DATA_NEXT) :
    s.nextChar ETX
      = ((({ s with charCount := (s.charCount + 1) % s.ulongModulus } : CMRI).processMessage).1.changeState
            .START ETX,
          (({ s with charCount := (s.charCount + 1) % s.ulongModulus } : CMRI).processMessage).2) := by
  cases s
  simp only at h
  subst h
  rfl

theorem nextChar_withCountersOf (s k : CMRI) (b : Nat) :
    ∃ k1, (s.withCountersOf k).nextChar b
      = ((s.nextChar b).1.withCountersOf k1, (s.nextChar b).2) := by
  by_cases hE : s.currentState = .MAYBE_DATA_NEXT ∧ b = ETX
  · obtain ⟨hs, rfl⟩ := hE
    obtain ⟨k1, hk1⟩ := processMessage_withCountersOf
      { s with charCount := (s.charCount + 1) % s.ulongModulus } { k with charCount := (k.charCount + 1) % s.ulongModulus }
    refine ⟨k1, ?_⟩
    rw [nextChar_ETX (s.withCountersOf k) hs, nextChar_ETX s hs]
    change ((((({ s with charCount := (s.charCount + 1) % s.ulongModulus } : CMRI).withCountersOf
      { k with charCount := (k.charCount + 1) % s.ulongModulus }).processMessage).1.changeState .START ETX),
      (((({ s with charCount := (s.charCount + 1) % s.ulongModulus } : CMRI).withCountersOf
      { k with charCount := (k.charCount + 1) % s.ulongModulus }).processMessage).2)) = _
    rw [hk1]
    rfl
  · refine ⟨((s.withCountersOf k).nextChar b).1, ?_⟩
    obtain ⟨nodeId, cs, messageDest, messageType, buf, messageLength, tickCount, charCount,
      messagesSeen, messagesProcessed, errorCount, initHandler, numInputs, inputs,
      inputHandler, numOutputs, outputs, perLineOutputHandler, overallOutputHandler,
      uintModulus, ulongModulus⟩ := s
    cases cs
    · by_cases hb : b = ATTN <;>
        simp [nextChar, withCountersOf, changeState, resetMessage, error, hb]
    · by_cases hb : b = ATTN <;> simp [nextChar, withCountersOf, changeState, error, hb]
    · by_cases hb : b = STX <;> simp [nextChar, withCountersOf, changeState, error, hb]
    · simp [nextChar, withCountersOf, changeState]
    · simp [nextChar, withCountersOf, changeState]
    · have hb : b ≠ ETX := fun h => hE ⟨rfl, h⟩
      by_cases hD : b = DLE
      · subst hD
        simp [nextChar, withCountersOf, changeState, DLE, ETX]
      · by_cases hl : MAX_MESG_LEN ≤ messageLength <;>
          simp [nextChar, withCountersOf, changeState, addCharToMessage, error, hb, hD, hl]
    · by_cases hl : MAX_MESG_LEN ≤ messageLength <;>
        simp [nextChar, withCountersOf, changeState, addCharToMessage, error, hl]

/-- C19: counters.  For every state `s` (reachable or not) and every fed byte,
`nextChar` increments `charCount` once in `unsigned long` arithmetic.  With the counters
taken as unbounded naturals (modulus 0), and on a real platform whenever the counter is
below its largest value, `nextChar` adds exactly one to `charCount` and leaves
`messagesSeen`, `messagesProcessed` and `errorCount` no smaller.  In every state reached
from a freshly constructed object by fed bytes and registration calls,
`messagesProcessed ≤ messagesSeen`: with the counters taken as unbounded naturals for
every run, and with the 32-bit counters of the AVR boards for every run of fewer than
2^32 actions.  And the counters are observability only, whatever the moduli are: if `t`
differs from `s` in counter values only, then on every byte `nextChar` causes the same
events (callback calls and stream writes) from `t` as from `s`, and the two resulting
states again differ in counter values only. -/
theorem counters_observability (s : CMRI) (b : Nat) :
    (s.nextChar b).1.charCount = (s.charCount + 1) % s.ulongModulus ∧
      (s.ulongModulus = 0 ∨ s.charCount + 1 < s.ulongModulus →
        (s.nextChar b).1.charCount = s.charCount + 1) ∧
      (s.ulongModulus = 0 ∨ s.messagesSeen + 1 < s.ulongModulus →
        s.messagesSeen ≤ (s.nextChar b).1.messagesSeen) ∧
      (s.ulongModulus = 0 ∨ s.messagesProcessed + 1 < s.ulongModulus →
        s.messagesProcessed ≤ (s.nextChar b).1.messagesProcessed) ∧
      (s.uintModulus = 0 ∨ s.errorCount + 1 < s.uintModulus →
        s.errorCount ≤ (s.nextChar b).1.errorCount) ∧
      (∀ (n : Nat) (ih : Bool) (ni no : Nat) (bf : List Nat) (md : Int) (mt : Nat)
          (acts : List Action),
        (((construct n ih ni no bf md mt).unboundedCounters).run acts).messagesProcessed
          ≤ (((construct n ih ni no bf md mt).unboundedCounters).run acts).messagesSeen) ∧
      (∀ (n : Nat) (ih : Bool) (ni no : Nat) (bf : List Nat) (md : Int) (mt : Nat)
          (acts : List Action), acts.length < ULONG_VALUES →
        ((construct n ih ni no bf md mt).run acts).messagesProcessed
          ≤ ((construct n ih ni no bf md mt).run acts).messagesSeen) ∧
      (∀ t : CMRI, t = s.withCountersOf t →
        (t.nextChar b).2 = (s.nextChar b).2 ∧
          (t.nextChar b).1 = (s.nextChar b).1.withCountersOf (t.nextChar b).1) := by
  have hc := nextChar_counters s b
  refine ⟨hc.1, ?_, ?_, ?_, ?_, ?_, ?_, ?_⟩
  · intro h
    rw [hc.1]
    exact succ_mod_exact _ _ h
  · intro h
    have e := succ_mod_exact _ _ h
    rw [e] at hc
    omega
  · intro h
    have e := succ_mod_exact _ _ h
    rw [e] at hc
    omega
  · intro h
    have e := succ_mod_exact _ _ h
    rw [e] at hc
    omega
  · intro n ih ni no bf md mt acts
    exact (run_processed_le_seen acts _ 0 (Nat.le_refl 0) (Nat.le_refl 0) (Or.inl rfl)).1
  · intro n ih ni no bf md mt acts hlen
    refine (run_processed_le_seen acts _ 0 (Nat.le_refl 0) (Nat.le_refl 0) (Or.inr ?_)).1
    show 0 + acts.length < ULONG_VALUES
    omega
  · intro t ht
    obtain ⟨k1, hk1⟩ := nextChar_withCountersOf s t b
    have e : t.nextChar b = ((s.nextChar b).1.withCountersOf k1, (s.nextChar b).2) :=
      (congrArg (fun x : CMRI => x.nextChar b) ht).trans hk1
    rw [e]
    exact ⟨rfl, rfl⟩

theorem counters_observability_witness :
    ((exampleMidFrame.ulongModulus = 0 ∨
          exampleMidFrame.charCount + 1 < exampleMidFrame.ulongModulus) ∧
        exampleRun.length < ULONG_VALUES ∧
        exampleOtherCounters = exampleMidFrame.withCountersOf exampleOtherCounters) ∧
      (exampleMidFrame.nextChar 0x03).1.charCount = exampleMidFrame.charCount + 1 ∧
      ((construct 5 false 0 0 (List.replicate 72 0) 0 0).run exampleRun).messagesProcessed
        ≤ ((construct 5 false 0 0 (List.replicate 72 0) 0 0).run exampleRun).messagesSeen ∧
      (exampleOtherCounters.nextChar 0x03).2 = (exampleMidFrame.nextChar 0x03).2 ∧
      (exampleOtherCounters.nextChar 0x03).1
        = (exampleMidFrame.nextChar 0x03).1.withCountersOf
            (exampleOtherCounters.nextChar 0x03).1 :=
  ⟨⟨by decide, by decide, rfl⟩,
    (counters_observability exampleMidFrame 0x03).2.1 (by decide),
    (counters_observability exampleMidFrame 0x03).2.2.2.2.2.2.1 5 false 0 0
      (List.replicate 72 0) 0 0 exampleRun (by decide),
    (counters_observability exampleMidFrame 0x03).2.2.2.2.2.2.2 exampleOtherCounters rfl⟩

/-! ## The node transmits only when polled -/

theorem writes_append (xs ys : List Event) : writes (xs ++ ys) = writes xs ++ writes ys := by
  simp [writes]

theorem writes_setOutput (s : CMRI) (i : Nat) (v : Bool) : writes (s.setOutput i v).2 = [] := by
  unfold setOutput
  split
  · split
    · cases s.perLineOutputHandler <;> simp [writes, isWrite]
    · rfl
  · rfl

theorem writes_processOutputsBody (acc : CMRI × Bool × List Event) (i : Nat) :
    writes (processOutputsBody acc i).2.2 = writes acc.2.2 := by
  unfold processOutputsBody
  dsimp only
  split
  · simp [writes_append, writes_setOutput]
  · rfl

theorem writes_foldl_processOutputsBody (l : List Nat) (acc : CMRI × Bool × List Event) :
    writes (l.foldl processOutputsBody acc).2.2 = writes acc.2.2 := by
  induction l generalizing acc with
  | nil => rfl
  | cons i t ih =>
    rw [List.foldl_cons, ih, writes_processOutputsBody]

theorem writes_processOutputs (s : CMRI) : writes s.processOutputs.2 = [] := by
  unfold processOutputs
  split
  · rfl
  · dsimp only
    have h := writes_foldl_processOutputsBody (List.range s.numOutputs) (s, false, [])
    split
    · rw [writes_append, h]; simp [writes, isWrite]
    · rw [h]; rfl

theorem writes_processInit (s : CMRI) : writes s.processInit.2 = [] := by
  unfold processInit
  split <;> rfl

theorem writes_dispatch_cons (d : Int) (t l : Nat) (bf : List Nat) (tr : List Event) :
    writes (Event.dispatch d t l bf :: tr) = writes tr := by
  simp [writes, isWrite]

theorem pollInputs_unconfigured (s : CMRI)
    (h : s.inputHandler.isSome = false ∨ s.inputs.isSome = false) :
    s.pollInputs = (s, []) := by
  unfold pollInputs
  split
  · rename_i q bank hq hb
    rcases h with h | h
    · rw [hq] at h; simp at h
    · rw [hb] at h; simp at h
  · rfl

theorem nextChar_no_events (s : CMRI) (b : Nat)
    (h : ¬ (s.currentState = .MAYBE_DATA_NEXT ∧ b = ETX)) : (s.nextChar b).2 = [] := by
  obtain ⟨nodeId, cs, messageDest, messageType, buf, messageLength, tickCount, charCount,
    messagesSeen, messagesProcessed, errorCount, initHandler, numInputs, inputs,
    inputHandler, numOutputs, outputs, perLineOutputHandler, overallOutputHandler,
    uintModulus, ulongModulus⟩ := s
  cases cs
  · rfl
  · rfl
  · rfl
  · rfl
  · rfl
  · have hb : b ≠ ETX := fun e => h ⟨rfl, e⟩
    by_cases hD : b = DLE
    · subst hD
      simp [nextChar, DLE, ETX]
    · simp [nextChar, hb, hD]
  · rfl

theorem writes_processMessage (s : CMRI) (hw : writes s.processMessage.2 ≠ []) :
    s.messageDest = (s.nodeId : Int) ∧ s.messageType = 0x50 ∧
      s.inputHandler.isSome = true ∧ s.inputs.isSome = true := by
  by_cases hd : s.messageDest = (s.nodeId : Int)
  · by_cases hP : s.messageType = 0x50
    · refine ⟨hd, hP, ?_, ?_⟩
      · by_contra hq
        rw [processMessage_poll s hd hP, pollInputs_unconfigured _
          (Or.inl (by simpa using hq))] at hw
        exact hw rfl
      · by_contra hb
        rw [processMessage_poll s hd hP, pollInputs_unconfigured _
          (Or.inr (by simpa using hb))] at hw
        exact hw rfl
    · exfalso
      by_cases hI : s.messageType = 0x49
      · rw [processMessage_init s hd hI, writes_dispatch_cons, writes_processInit] at hw
        exact hw rfl
      · by_cases hT : s.messageType = 0x54
        · rw [processMessage_outputs s hd hT, writes_dispatch_cons, writes_processOutputs] at hw
          exact hw rfl
        · rw [processMessage_other_type s hd hI hT hP] at hw
          exact hw rfl
  · rw [processMessage_other_node s hd] at hw
    exact absurd rfl hw

/-- C20: the node never transmits unless polled.  For every state and every fed
byte, if `nextChar` writes any byte to the stream, then the parser was in
`MAYBE_DATA_NEXT`, the byte is `ETX`, the completed frame has `messageDest = nodeId`
and type P (`0x50`), and both the input handler and the input bank are configured.
So every byte that is not an `ETX` in `MAYBE_DATA_NEXT` writes nothing, and neither
does a completed frame of any type other than P (I, T and unknown types included), or
one addressed to another node. -/
theorem writes_only_when_polled (s : CMRI) (b : Nat) :
    (writes (s.nextChar b).2 ≠ [] →
        s.currentState = .MAYBE_DATA_NEXT ∧ b = ETX ∧
          s.messageDest = (s.nodeId : Int) ∧ s.messageType = 0x50 ∧
          s.inputHandler.isSome = true ∧ s.inputs.isSome = true) ∧
      (¬ (s.currentState = .MAYBE_DATA_NEXT ∧ b = ETX) → writes (s.nextChar b).2 = []) ∧
      (s.messageType ≠ 0x50 → writes (s.nextChar b).2 = []) ∧
      (s.messageDest ≠ (s.nodeId : Int) → writes (s.nextChar b).2 = []) := by
  have main : writes (s.nextChar b).2 ≠ [] →
      s.currentState = .MAYBE_DATA_NEXT ∧ b = ETX ∧
        s.messageDest = (s.nodeId : Int) ∧ s.messageType = 0x50 ∧
        s.inputHandler.isSome = true ∧ s.inputs.isSome = true := by
    intro hw
    by_cases hE : s.currentState = .MAYBE_DATA_NEXT ∧ b = ETX
    · obtain ⟨hs, rfl⟩ := hE
      rw [nextChar_ETX s hs] at hw
      exact ⟨hs, rfl, writes_processMessage { s with charCount := (s.charCount + 1) % s.ulongModulus } hw⟩
    · rw [nextChar_no_events s b hE] at hw
      exact absurd rfl hw
  refine ⟨main, ?_, ?_, ?_⟩
  · intro h
    by_contra hw
    exact h ⟨(main hw).1, (main hw).2.1⟩
  · intro h
    by_contra hw
    exact h (main hw).2.2.2.1
  · intro h
    by_contra hw
    exact h (main hw).2.2.1

theorem writes_only_when_polled_witness :
    writes (exampleInputsMid.nextChar 0x03).2 ≠ [] ∧
      (exampleInputsMid.currentState = .MAYBE_DATA_NEXT ∧ 0x03 = ETX ∧
        exampleInputsMid.messageDest = (exampleInputsMid.nodeId : Int) ∧
        exampleInputsMid.messageType = 0x50 ∧
        exampleInputsMid.inputHandler.isSome = true ∧
        exampleInputsMid.inputs.isSome = true) :=
  ⟨by decide, (writes_only_when_polled exampleInputsMid 0x03).1 (by decide)⟩

/-! ## Registration and the line banks -/

theorem setOutput_outputs_isSome (s : CMRI) (i : Nat) (v : Bool) :
    (s.setOutput i v).1.outputs.isSome = s.outputs.isSome := by
  unfold setOutput
  split
  · rename_i bank hb
    split
    · rw [hb]; rfl
    · rfl
  · rfl

theorem processOutputsBody_outputs_isSome (acc : CMRI × Bool × List Event) (i : Nat) :
    (processOutputsBody acc i).1.outputs.isSome = acc.1.outputs.isSome := by
  unfold processOutputsBody
  dsimp only
  split
  · exact setOutput_outputs_isSome _ _ _
  · rfl

theorem foldl_processOutputsBody_outputs_isSome (l : List Nat)
    (acc : CMRI × Bool × List Event) :
    (l.foldl processOutputsBody acc).1.outputs.isSome = acc.1.outputs.isSome := by
  induction l generalizing acc with
  | nil => rfl
  | cons i t ih => rw [List.foldl_cons, ih, processOutputsBody_outputs_isSome]

theorem processOutputs_outputs_isSome (s : CMRI) :
    s.processOutputs.1.outputs.isSome = s.outputs.isSome := by
  unfold processOutputs
  split
  · rfl
  · dsimp only
    have h := foldl_processOutputsBody_outputs_isSome (List.range s.numOutputs) (s, false, [])
    split <;> exact h

theorem pollInputs_inputs_isSome (s : CMRI) :
    s.pollInputs.1.inputs.isSome = s.inputs.isSome := by
  unfold pollInputs
  split
  · rename_i q bank hq hb
    dsimp only
    rw [hb]
    split <;> rfl
  · rfl

theorem processMessage_config (s : CMRI) :
    s.processMessage.1.inputHandler = s.inputHandler ∧
      s.processMessage.1.inputs.isSome = s.inputs.isSome ∧
      s.processMessage.1.outputs.isSome = s.outputs.isSome := by
  by_cases hd : s.messageDest = (s.nodeId : Int)
  · by_cases hI : s.messageType = 0x49
    · rw [processMessage_init s hd hI]
      dsimp only
      rw [processInit_fst]
      exact ⟨rfl, rfl, rfl⟩
    · by_cases hT : s.messageType = 0x54
      · rw [processMessage_outputs s hd hT]
        dsimp only
        refine ⟨?_, ?_, processOutputs_outputs_isSome _⟩
        · rw [processOutputs_fst]
        · rw [processOutputs_fst]
      · by_cases hP : s.messageType = 0x50
        · rw [processMessage_poll s hd hP]
          dsimp only
          refine ⟨?_, pollInputs_inputs_isSome _, ?_⟩
          · rw [pollInputs_fst]
          · rw [pollInputs_fst]
        · rw [processMessage_other_type s hd hI hT hP]
          exact ⟨rfl, rfl, rfl⟩
  · rw [processMessage_other_node s hd]
    exact ⟨rfl, rfl, rfl⟩

theorem nextChar_config (s : CMRI) (b : Nat) :
    (s.nextChar b).1.inputHandler = s.inputHandler ∧
      (s.nextChar b).1.inputs.isSome = s.inputs.isSome ∧
      (s.nextChar b).1.outputs.isSome = s.outputs.isSome := by
  by_cases hE : s.currentState = .MAYBE_DATA_NEXT ∧ b = ETX
  · obtain ⟨hs, rfl⟩ := hE
    rw [nextChar_ETX s hs]
    exact processMessage_config { s with charCount := (s.charCount + 1) % s.ulongModulus }
  · obtain ⟨nodeId, cs, messageDest, messageType, buf, messageLength, tickCount, charCount,
      messagesSeen, messagesProcessed, errorCount, initHandler, numInputs, inputs,
      inputHandler, numOutputs, outputs, perLineOutputHandler, overallOutputHandler,
      uintModulus, ulongModulus⟩ := s
    cases cs
    · by_cases hb : b = ATTN <;> simp [nextChar, changeState, resetMessage, error, hb]
    · by_cases hb : b = ATTN <;> simp [nextChar, changeState, error, hb]
    · by_cases hb : b = STX <;> simp [nextChar, changeState, error, hb]
    · simp [nextChar, changeState]
    · simp [nextChar, changeState]
    · have hb : b ≠ ETX := fun h => hE ⟨rfl, h⟩
      by_cases hD : b = DLE
      · subst hD
        simp [nextChar, changeState, DLE, ETX]
      · by_cases hl : MAX_MESG_LEN ≤ messageLength <;>
          simp [nextChar, changeState, addCharToMessage, error, hb, hD, hl]
    · by_cases hl : MAX_MESG_LEN ≤ messageLength <;>
        simp [nextChar, changeState, addCharToMessage, error, hl]

theorem processMessage_outputHandlers (s : CMRI) :
    s.processMessage.1.perLineOutputHandler = s.perLineOutputHandler ∧
      s.processMessage.1.overallOutputHandler = s.overallOutputHandler := by
  unfold processMessage
  dsimp only
  split
  · exact ⟨rfl, rfl⟩
  · split
    · rw [processInit_fst]; exact ⟨rfl, rfl⟩
    · split
      · rw [processOutputs_fst]; exact ⟨rfl, rfl⟩
      · split
        · rw [pollInputs_fst]; exact ⟨rfl, rfl⟩
        · exact ⟨rfl, rfl⟩

theorem nextChar_outputHandlers (s : CMRI) (b : Nat) :
    (s.nextChar b).1.perLineOutputHandler = s.perLineOutputHandler ∧
      (s.nextChar b).1.overallOutputHandler = s.overallOutputHandler := by
  by_cases hE : s.currentState = .MAYBE_DATA_NEXT ∧ b = ETX
  · obtain ⟨hs, rfl⟩ := hE
    rw [nextChar_ETX_counted s hs]
    exact processMessage_outputHandlers s.counted
  · obtain ⟨nodeId, cs, messageDest, messageType, buf, messageLength, tickCount, charCount,
      messagesSeen, messagesProcessed, errorCount, initHandler, numInputs, inputs,
      inputHandler, numOutputs, outputs, perLineOutputHandler, overallOutputHandler,
      uintModulus, ulongModulus⟩ := s
    cases cs
    · by_cases hb : b = ATTN <;> simp [nextChar, changeState, resetMessage, error, hb]
    · by_cases hb : b = ATTN <;> simp [nextChar, changeState, error, hb]
    · by_cases hb : b = STX <;> simp [nextChar, changeState, error, hb]
    · simp [nextChar, changeState]
    · simp [nextChar, changeState]
    · have hb : b ≠ ETX := fun h => hE ⟨rfl, h⟩
      by_cases hD : b = DLE
      · subst hD
        simp [nextChar, changeState, DLE, ETX]
      · by_cases hl : MAX_MESG_LEN ≤ messageLength <;>
          simp [nextChar, changeState, addCharToMessage, error, hb, hD, hl]
    · by_cases hl : MAX_MESG_LEN ≤ messageLength <;>
        simp [nextChar, changeState, addCharToMessage, error, hl]

theorem setInputHandler_noop (s : CMRI) (m : Nat) (h : Option (Nat → Bool)) (mem : Bool)
    (hc : s.inputHandler.isSome = true ∧ s.inputs.isSome = true) :
    s.setInputHandler m h mem = s := by
  unfold setInputHandler
  have h1 := hc.1
  have h2 := hc.2
  cases hq : s.inputHandler <;> cases hb : s.inputs <;> simp [hq, hb] at h1 h2 ⊢

theorem setOutputHandler_noop (s : CMRI) (m : Nat) (mem : Bool)
    (hc : s.outputs.isSome = true) :
    s.setOutputHandler m true true mem = s := by
  unfold setOutputHandler
  cases hb : s.outputs <;> simp [hb] at hc ⊢

theorem act_inputs_configured (s : CMRI) (a : Action)
    (h : s.inputHandler.isSome = true ∧ s.inputs.isSome = true) :
    (s.act a).inputHandler.isSome = true ∧ (s.act a).inputs.isSome = true := by
  cases a with
  | byte b =>
    have hc := nextChar_config s b
    exact ⟨by rw [show (s.act (.byte b)).inputHandler = s.inputHandler from hc.1]; exact h.1,
      by rw [show (s.act (.byte b)).inputs.isSome = s.inputs.isSome from hc.2.1]; exact h.2⟩
  | setInit ih => exact h
  | setInput n q mem =>
    show (s.setInputHandler n q mem).inputHandler.isSome = true ∧
      (s.setInputHandler n q mem).inputs.isSome = true
    rw [setInputHandler_noop s n q mem h]
    exact h
  | setOutput n p o mem =>
    simp only [act, setOutputHandler]
    split <;> exact h

theorem act_outputs_registered (s : CMRI) (a : Action) (ha : a.givesOutputCallbacks = true)
    (h : s.perLineOutputHandler = true ∧ s.overallOutputHandler = true ∧
      s.outputs.isSome = true) :
    (s.act a).perLineOutputHandler = true ∧ (s.act a).overallOutputHandler = true ∧
      (s.act a).outputs.isSome = true := by
  cases a with
  | byte b =>
    have hc := nextChar_config s b
    have ho := nextChar_outputHandlers s b
    show (s.nextChar b).1.perLineOutputHandler = true ∧
      (s.nextChar b).1.overallOutputHandler = true ∧ (s.nextChar b).1.outputs.isSome = true
    rw [ho.1, ho.2, hc.2.2]
    exact h
  | setInit ih => exact h
  | setInput n q mem =>
    simp only [act, setInputHandler]
    split <;> exact h
  | setOutput n p o mem =>
    have hpo : p = true ∧ o = true := by
      simpa [Action.givesOutputCallbacks] using ha
    show (s.setOutputHandler n p o mem).perLineOutputHandler = true ∧
      (s.setOutputHandler n p o mem).overallOutputHandler = true ∧
      (s.setOutputHandler n p o mem).outputs.isSome = true
    rw [hpo.1, hpo.2, setOutputHandler_noop s n mem h.2.2]
    exact h

theorem run_inputs_configured (acts : List Action) (s : CMRI)
    (h : s.inputHandler.isSome = true ∧ s.inputs.isSome = true) :
    (s.run acts).inputHandler.isSome = true ∧ (s.run acts).inputs.isSome = true := by
  induction acts generalizing s with
  | nil => exact h
  | cons a t ih => exact ih (s.act a) (act_inputs_configured s a h)

theorem run_outputs_registered (acts : List Action) (s : CMRI)
    (ha : ∀ a ∈ acts, a.givesOutputCallbacks = true)
    (h : s.perLineOutputHandler = true ∧ s.overallOutputHandler = true ∧
      s.outputs.isSome = true) :
    (s.run acts).perLineOutputHandler = true ∧ (s.run acts).overallOutputHandler = true ∧
      (s.run acts).outputs.isSome = true := by
  induction acts generalizing s with
  | nil => exact h
  | cons a t ih =>
    exact ih (s.act a) (fun x hx => ha x (List.mem_cons_of_mem _ hx))
      (act_outputs_registered s a (ha a (List.mem_cons_self _ _)) h)

theorem setInputHandler_configured (s : CMRI) (n : Nat) (q : Nat → Bool) (mem : Bool)
    (hb : (s.setInputHandler n (some q) mem).inputs.isSome = true) :
    (s.setInputHandler n (some q) mem).inputHandler.isSome = true ∧
      (s.setInputHandler n (some q) mem).inputs.isSome = true := by
  refine ⟨?_, hb⟩
  unfold setInputHandler
  split
  · rfl
  · rename_i hc
    cases h1 : s.inputHandler <;> simp [h1] at hc ⊢

/-- C18, counterexample: an allocated bank is replaced by a later registration call.
The output bank of three lines holding `[true, false, true]` becomes a bank of five
lines, all off, when `setOutputHandler` is called again with a null per-line callback;
and an input bank of three lines registered with a null query callback becomes a bank
of five lines when `setInputHandler` is called again.  Every `calloc` succeeds here. -/
theorem bank_reallocated :
    (exampleOutputs.processOutputs.1.outputs = some [true, false, true] ∧
        (exampleOutputs.processOutputs.1.setOutputHandler 5 false true true).outputs
          = some [false, false, false, false, false]) ∧
      ((exampleNode.setInputHandler 3 none true).inputs = some [false, false, false] ∧
        ((exampleNode.setInputHandler 3 none true).setInputHandler 5 none true).inputs
          = some [false, false, false, false, false]) := by
  decide

/-- C18, amended: the line banks are kept by later registration calls in these
cases.  Once a call of `setInputHandler` with a non-null query callback has left the
object with an input bank, every later call of `setInputHandler`, after any fed bytes
and registration calls, with any line count, any callback (null included) and any
outcome of `calloc`, leaves the object unchanged, so the input bank keeps its length
and stored values.  Once a call of `setOutputHandler` with two non-null callbacks has
allocated the output bank of an object that had none, every later call of
`setOutputHandler` with two non-null callbacks and any line count, after any fed bytes
and registration calls that pass two non-null callbacks to `setOutputHandler`, leaves
the object unchanged, so the output bank keeps its length and stored values.  When the
`calloc` of a registration call fails on an object without a bank, the bank pointer
stays null and the next call of the same method registers again, with its own line
count.  Nothing is stated about calls of `setOutputHandler` with a null callback made
once the output bank is allocated. -/
theorem registration_keeps_banks (s0 : CMRI) (acts : List Action) (n m : Nat)
    (mem mem2 : Bool) :
    (∀ (q : Nat → Bool) (h : Option (Nat → Bool)),
        (s0.setInputHandler n (some q) mem).inputs.isSome = true →
        ((s0.setInputHandler n (some q) mem).run acts).setInputHandler m h mem2
          = (s0.setInputHandler n (some q) mem).run acts) ∧
      (s0.outputs = none → mem = true →
        (∀ a ∈ acts, a.givesOutputCallbacks = true) →
        (s0.setOutputHandler n true true mem).outputs = some (List.replicate n false) ∧
          ((s0.setOutputHandler n true true mem).run acts).setOutputHandler m true true mem2
            = (s0.setOutputHandler n true true mem).run acts) ∧
      (s0.inputs = none → ∀ (h1 h2 : Option (Nat → Bool)),
        (s0.setInputHandler n h1 false).inputs = none ∧
          ((s0.setInputHandler n h1 false).setInputHandler m h2 mem2).numInputs = m ∧
          ((s0.setInputHandler n h1 false).setInputHandler m h2 true).inputs
            = some (List.replicate m false)) ∧
      (s0.outputs = none → ∀ (p1 o1 p2 o2 : Bool),
        (s0.setOutputHandler n p1 o1 false).outputs = none ∧
          ((s0.setOutputHandler n p1 o1 false).setOutputHandler m p2 o2 mem2).numOutputs = m ∧
          ((s0.setOutputHandler n p1 o1 false).setOutputHandler m p2 o2 true).outputs
            = some (List.replicate m false)) := by
  refine ⟨?_, ?_, ?_, ?_⟩
  · intro q h hb
    exact setInputHandler_noop _ m h mem2
      (run_inputs_configured acts _ (setInputHandler_configured s0 n q mem hb))
  · intro h0 hmem ha
    have h1 : s0.setOutputHandler n true true mem
        = { s0 with
            perLineOutputHandler := true
            overallOutputHandler := true
            numOutputs := n
            outputs := some (List.replicate n false) } := by
      simp [setOutputHandler, h0, hmem]
    rw [h1]
    refine ⟨rfl, ?_⟩
    have hreg := run_outputs_registered acts
      { s0 with
        perLineOutputHandler := true
        overallOutputHandler := true
        numOutputs := n
        outputs := some (List.replicate n false) } ha ⟨rfl, rfl, rfl⟩
    exact setOutputHandler_noop _ m mem2 hreg.2.2
  · intro h0 h1 h2
    simp [setInputHandler, h0]
  · intro h0 p1 o1 p2 o2
    simp [setOutputHandler, h0]

theorem registration_keeps_banks_witness :
    ((exampleNode.setInputHandler 10 (some (fun i => i % 3 == 0)) true).inputs.isSome = true ∧
        exampleNode.outputs = none ∧
        (∀ a ∈ exampleRun, a.givesOutputCallbacks = true)) ∧
      ((exampleNode.setInputHandler 10 (some (fun i => i % 3 == 0)) true).run
            exampleRun).setInputHandler 4 none true
        = (exampleNode.setInputHandler 10 (some (fun i => i % 3 == 0)) true).run exampleRun ∧
      ((exampleNode.setOutputHandler 3 true true true).outputs
          = some (List.replicate 3 false) ∧
        ((exampleNode.setOutputHandler 3 true true true).run exampleRun).setOutputHandler 4
            true true true
          = (exampleNode.setOutputHandler 3 true true true).run exampleRun) :=
  ⟨⟨rfl, rfl, by decide⟩,
    (registration_keeps_banks exampleNode exampleRun 10 4 true true).1
      (fun i => i % 3 == 0) none rfl,
    (registration_keeps_banks exampleNode exampleRun 3 4 true true).2.1 rfl rfl (by decide)⟩

/-! ## Apply-outputs twice -/

theorem perLineCalls_updated (s : CMRI) (n i : Nat) (hi : i < n) :
    perLineCalls s ((List.range n).map s.incomingBit) i = [] := by
  unfold perLineCalls
  rw [getD_map_range s.incomingBit n i hi]
  simp

theorem flatMap_perLineCalls_updated (s : CMRI) (n : Nat) (l : List Nat)
    (hl : ∀ i ∈ l, i < n) :
    l.flatMap (perLineCalls s ((List.range n).map s.incomingBit)) = [] := by
  induction l with
  | nil => rfl
  | cons i t ih =>
    rw [List.flatMap_cons, perLineCalls_updated s n i (hl i (List.mem_cons_self _ _)),
      ih (fun j hj => hl j (List.mem_cons_of_mem _ hj))]
    rfl

theorem any_changed_updated (s : CMRI) (n : Nat) (l : List Nat) (hl : ∀ i ∈ l, i < n) :
    l.any (fun i => ((List.range n).map s.incomingBit).getD i false != s.incomingBit i)
      = false := by
  induction l with
  | nil => rfl
  | cons i t ih =>
    rw [List.any_cons, getD_map_range s.incomingBit n i (hl i (List.mem_cons_self _ _)),
      ih (fun j hj => hl j (List.mem_cons_of_mem _ hj))]
    simp

/-- C22: apply-outputs is idempotent.  For an allocated output bank of `numOutputs`
lines and any message in the buffer, running `processOutputs` again right after it
has run, on the same payload, leaves the object (so the bank) unchanged and causes no
event: neither the per-line callback nor the bulk callback is invoked. -/
theorem processOutputs_idempotent (s : CMRI) (bank : List Bool)
    (hb : s.outputs = some bank) (hlen : bank.length = s.numOutputs) :
    s.processOutputs.1.processOutputs = (s.processOutputs.1, []) ∧
      s.processOutputs.1.processOutputs.1.outputs = s.processOutputs.1.outputs ∧
      s.processOutputs.1.processOutputs.2 = [] := by
  have e1 := processOutputs_eq s bank hb hlen
  have hinc : ({ s with outputs := some ((List.range s.numOutputs).map s.incomingBit) }
      : CMRI).incomingBit = s.incomingBit := rfl
  have e2 := processOutputs_eq
    { s with outputs := some ((List.range s.numOutputs).map s.incomingBit) }
    ((List.range s.numOutputs).map s.incomingBit) rfl (by simp)
  have hmem : ∀ i ∈ List.range s.numOutputs, i < s.numOutputs :=
    fun i hi => List.mem_range.mp hi
  have hf : (List.range s.numOutputs).flatMap
      (perLineCalls { s with outputs := some ((List.range s.numOutputs).map s.incomingBit) }
        ((List.range s.numOutputs).map s.incomingBit)) = [] :=
    flatMap_perLineCalls_updated
      { s with outputs := some ((List.range s.numOutputs).map s.incomingBit) }
      s.numOutputs _ hmem
  dsimp only at e2
  rw [hinc, hf, any_changed_updated s s.numOutputs _ hmem] at e2
  have e3 : s.processOutputs.1.processOutputs = (s.processOutputs.1, []) := by
    rw [e1]
    dsimp only
    rw [e2]
    rfl
  rw [e3]
  exact ⟨rfl, rfl, rfl⟩

theorem processOutputs_idempotent_witness :
    (exampleOutputs.outputs = some [false, false, false] ∧
        [false, false, false].length = exampleOutputs.numOutputs) ∧
      exampleOutputs.processOutputs.1.processOutputs = (exampleOutputs.processOutputs.1, []) ∧
      exampleOutputs.processOutputs.1.processOutputs.1.outputs
        = exampleOutputs.processOutputs.1.outputs ∧
      exampleOutputs.processOutputs.1.processOutputs.2 = [] :=
  ⟨⟨rfl, rfl⟩, processOutputs_idempotent exampleOutputs [false, false, false] rfl rfl⟩

/-! ## The poll response and what earlier frames left in the buffer -/

/-- C21, evaluated on the code: the same node (address 70, ten input lines, the same
query callback) is polled after two different frames addressed to another node.  The
second payload byte of the response carries lines 8 and 9 in bits 0 and 1; its bits
2 to 7 are whatever the earlier frame left in `buf[1]`.  After a frame with payload
`00 FF` the node transmits `FF FF 02 46 52 49 FE 03`, after one with payload `00 00`
it transmits `FF FF 02 46 52 49 10 02 03`: the two byte sequences differ, in length
too. -/
theorem poll_response_shows_stale_bits :
    writes (feed pollNode pollAfterFF).2
        = [0xFF, 0xFF, 0x02, 0x46, 0x52, 0x49, 0xFE, 0x03].map Event.write ∧
      writes (feed pollNode pollAfter00).2
        = [0xFF, 0xFF, 0x02, 0x46, 0x52, 0x49, 0x10, 0x02, 0x03].map Event.write ∧
      writes (feed pollNode pollAfterFF).2 ≠ writes (feed pollNode pollAfter00).2 := by
  decide

theorem foldl_setBit_later (q : Nat → Bool) (buf : List Nat) (L k i : Nat) (hi : k ≤ i) :
    getBit ((List.range k).foldl (fun bf j => setBit bf L j (q j)) buf) L i
      = getBit buf L i := by
  induction k with
  | zero => rfl
  | succ k ih =>
    rw [List.range_succ, List.foldl_append]
    simp only [List.foldl_cons, List.foldl_nil]
    rw [getBit_setBit_ne _ L k i (q k) (by omega)]
    exact ih (by omega)

theorem getD_setBit_lt (buf : List Nat) (L n j : Nat) (v : Bool)
    (h : ∀ j, buf.getD j 0 < 256) : (setBit buf L n v).getD j 0 < 256 := by
  by_cases e : n / 8 = j
  · subst e
    by_cases hlen : n / 8 < buf.length
    · unfold setBit
      by_cases hL : n / 8 < L
      · cases v
        · simp only [hL, if_true, Bool.false_eq_true, if_false]
          rw [getD_set_eq _ _ _ hlen]
          exact Nat.mod_lt _ (by decide)
        · simp only [hL, if_true]
          rw [getD_set_eq _ _ _ hlen]
          exact Nat.mod_lt _ (by decide)
      · simp only [hL, if_false]
        exact h _
    · rw [setBit_of_length_le buf L n v (by omega)]
      exact h _
  · rw [getD_setBit_ne buf L n j v e]
    exact h j

theorem foldl_setBit_lt (q : Nat → Bool) (L : Nat) (l : List Nat) (buf : List Nat)
    (h : ∀ j, buf.getD j 0 < 256) (j : Nat) :
    (l.foldl (fun bf i => setBit bf L i (q i)) buf).getD j 0 < 256 := by
  induction l generalizing buf with
  | nil => exact h j
  | cons i t ih =>
    rw [List.foldl_cons]
    exact ih _ (fun j => getD_setBit_lt buf L i j (q i) h)

theorem byte_eq_of_testBit (x y : Nat) (hx : x < 256) (hy : y < 256)
    (h : ∀ j, j < 8 → x.testBit j = y.testBit j) : x = y := by
  apply Nat.eq_of_testBit_eq
  intro j
  by_cases hj : j < 8
  · exact h j hj
  · have hp : 2 ^ 8 ≤ 2 ^ j := Nat.pow_le_pow_right (by decide) (by omega)
    rw [Nat.testBit_lt_two_pow (Nat.lt_of_lt_of_le hx hp),
      Nat.testBit_lt_two_pow (Nat.lt_of_lt_of_le hy hp)]

theorem getBit_byte (buf : List Nat) (L k j : Nat) (hk : k < L) (hj : j < 8) :
    getBit buf L (8 * k + j) = (buf.getD k 0).testBit j := by
  have h1 : (8 * k + j) / 8 = k := by omega
  have h2 : (8 * k + j) % 8 = j := by omega
  rw [getBit_eq_testBit, h1, h2]
  simp [hk]

theorem getD_of_forall_mem_lt (buf : List Nat) (h : ∀ x ∈ buf, x < 256) (j : Nat) :
    buf.getD j 0 < 256 := by
  by_cases hj : j < buf.length
  · rw [List.getD_eq_getElem _ _ hj]
    exact h _ (List.getElem_mem _)
  · rw [List.getD_eq_default _ _ (by omega)]
    decide

theorem pollBuffer_getD_eq (s1 s2 : CMRI) (q : Nat → Bool) (k : Nat)
    (hn : s1.numInputs = s2.numInputs)
    (hbuf1 : s1.buf.length = MAX_MESG_LEN) (hbuf2 : s2.buf.length = MAX_MESG_LEN)
    (hby1 : ∀ x ∈ s1.buf, x < 256) (hby2 : ∀ x ∈ s2.buf, x < 256)
    (hk : k < MAX_MESG_LEN)
    (hpad : ∀ i, s1.numInputs ≤ i → i / 8 = k →
      getBit s1.buf MAX_MESG_LEN i = getBit s2.buf MAX_MESG_LEN i) :
    (s1.pollBuffer q).getD k 0 = (s2.pollBuffer q).getD k 0 := by
  apply byte_eq_of_testBit
  · exact foldl_setBit_lt q _ _ _ (getD_of_forall_mem_lt _ hby1) k
  · exact foldl_setBit_lt q _ _ _ (getD_of_forall_mem_lt _ hby2) k
  · intro j hj
    rw [← getBit_byte (s1.pollBuffer q) MAX_MESG_LEN k j hk hj,
      ← getBit_byte (s2.pollBuffer q) MAX_MESG_LEN k j hk hj]
    have h8 : (8 * k + j) / 8 = k := by omega
    by_cases hi : 8 * k + j < s1.numInputs
    · rw [pollBuffer, (foldl_setBit_inv q s1.buf s1.numInputs (by rw [hbuf1])).2 _ hi
          (by omega),
        pollBuffer, (foldl_setBit_inv q s2.buf s2.numInputs (by rw [hbuf2])).2 _
          (by omega) (by omega)]
    · rw [pollBuffer, foldl_setBit_later q s1.buf _ _ _ (by omega),
        pollBuffer, foldl_setBit_later q s2.buf _ _ _ (by omega)]
      exact hpad _ (by omega) h8

theorem pollBuffer_take_eq (s1 s2 : CMRI) (q : Nat → Bool) (m : Nat)
    (hn : s1.numInputs = s2.numInputs)
    (hbuf1 : s1.buf.length = MAX_MESG_LEN) (hbuf2 : s2.buf.length = MAX_MESG_LEN)
    (hby1 : ∀ x ∈ s1.buf, x < 256) (hby2 : ∀ x ∈ s2.buf, x < 256)
    (hm : m ≤ MAX_MESG_LEN)
    (hpad : ∀ i, s1.numInputs ≤ i → i / 8 < m →
      getBit s1.buf MAX_MESG_LEN i = getBit s2.buf MAX_MESG_LEN i) :
    (s1.pollBuffer q).take m = (s2.pollBuffer q).take m := by
  have hl1 : (s1.pollBuffer q).length = MAX_MESG_LEN := by
    rw [pollBuffer, length_foldl_setBit MAX_MESG_LEN (fun i => i) q, hbuf1]
  have hl2 : (s2.pollBuffer q).length = MAX_MESG_LEN := by
    rw [pollBuffer, length_foldl_setBit MAX_MESG_LEN (fun i => i) q, hbuf2]
  apply List.ext_getElem?
  intro k
  rw [List.getElem?_take, List.getElem?_take]
  by_cases hk : k < m
  · simp only [hk, if_true]
    have hk1 : k < (s1.pollBuffer q).length := by omega
    have hk2 : k < (s2.pollBuffer q).length := by omega
    rw [List.getElem?_eq_getElem hk1, List.getElem?_eq_getElem hk2,
      ← List.getD_eq_getElem _ 0 hk1, ← List.getD_eq_getElem _ 0 hk2,
      pollBuffer_getD_eq s1 s2 q k hn hbuf1 hbuf2 hby1 hby2 (by omega)
        (fun i hi h8 => hpad i hi (by omega))]
  · simp only [hk, if_false]

/-- What the code does guarantee about the poll response: two nodes with the same
address, the same number of input lines and the same query callback cause the same
events in `pollInputs`, the same bytes written included, when their buffers agree in
the padding bits, that is in the bits `i ≥ numInputs` of the bytes that are sent. -/
theorem pollInputs_events_eq_of_padding (s1 s2 : CMRI) (q : Nat → Bool)
    (bank1 bank2 : List Bool)
    (hq1 : s1.inputHandler = some q) (hq2 : s2.inputHandler = some q)
    (hb1 : s1.inputs = some bank1) (hb2 : s2.inputs = some bank2)
    (hl1 : bank1.length = s1.numInputs) (hl2 : bank2.length = s2.numInputs)
    (hn : s1.numInputs = s2.numInputs) (hid : s1.nodeId = s2.nodeId)
    (hn16 : s1.numInputs < 65536)
    (hbuf1 : s1.buf.length = MAX_MESG_LEN) (hbuf2 : s2.buf.length = MAX_MESG_LEN)
    (hby1 : ∀ x ∈ s1.buf, x < 256) (hby2 : ∀ x ∈ s2.buf, x < 256)
    (hpad : ∀ i, s1.numInputs ≤ i → i / 8 < s1.numInputs / 8 + 1 →
      getBit s1.buf MAX_MESG_LEN i = getBit s2.buf MAX_MESG_LEN i) :
    s1.pollInputs.2 = s2.pollInputs.2 := by
  have hl1p : (s1.pollBuffer q).length = MAX_MESG_LEN := by
    rw [pollBuffer, length_foldl_setBit MAX_MESG_LEN (fun i => i) q, hbuf1]
  have hl2p : (s2.pollBuffer q).length = MAX_MESG_LEN := by
    rw [pollBuffer, length_foldl_setBit MAX_MESG_LEN (fun i => i) q, hbuf2]
  rw [pollInputs_eq s1 q bank1 hq1 hb1 hl1 hn16,
    pollInputs_eq s2 q bank2 hq2 hb2 hl2 (by omega), ← hn]
  by_cases hg : s1.numInputs / 8 + 1 < MAX_MESG_LEN
  · simp only [hg, if_true]
    rw [sendMessage, sendMessage,
      sendBytes_eq_encodeSpec _ (by dsimp only; rw [hl1p]; omega),
      sendBytes_eq_encodeSpec _ (by dsimp only; rw [hl2p]; omega)]
    dsimp only
    rw [pollBuffer_take_eq s1 s2 q _ hn hbuf1 hbuf2 hby1 hby2 (by omega) hpad, hid]
  · simp only [hg, if_false]

/-! ## `ATTN` inside a frame -/

/-- C15, counterexample: with one payload byte stored and the parser in
`MAYBE_DATA_NEXT`, the byte `0xFF` causes no call of `processMessage`, leaves the
parser in `MAYBE_DATA_NEXT` and is stored as the second payload byte, while `ETX` in
the same state does dispatch and moves to `START`. -/
theorem attn_in_payload_not_dispatched :
    dispatches (exampleMidFrame.nextChar 0xFF).2 = [] ∧
      (exampleMidFrame.nextChar 0xFF).1.currentState = .MAYBE_DATA_NEXT ∧
      (exampleMidFrame.nextChar 0xFF).1.messageLength = 2 ∧
      (exampleMidFrame.nextChar 0xFF).1.buf.take 2 = [0x05, 0xFF] ∧
      (dispatches (exampleMidFrame.nextChar 0x03).2).length = 1 ∧
      (exampleMidFrame.nextChar 0x03).1.currentState = .START := by
  decide

/-- C15, amended: in `MAYBE_DATA_NEXT` the byte `ATTN` (`0xFF`) is payload data.  With
room in the buffer it is appended, the parser stays in `MAYBE_DATA_NEXT` and nothing
else changes but `charCount`, which is incremented in `unsigned long` arithmetic; with
the buffer full it is an overflow error: the parser moves to `START` and `errorCount`
is incremented in `unsigned int` arithmetic.  In both cases there is no event:
`processMessage` is not called.  Only `ETX` dispatches the completed frame: in every
state, every byte `b` other than an `ETX` met in `MAYBE_DATA_NEXT` causes no event at
all, and `ETX` in `MAYBE_DATA_NEXT` calls `processMessage` exactly once, with the
message accumulated so far, and moves the parser to `START`. -/
theorem nextChar_attn_in_payload (s : CMRI) (b : Nat) :
    (s.currentState = .MAYBE_DATA_NEXT → s.messageLength < MAX_MESG_LEN →
        s.nextChar ATTN
          = ({ s with
                charCount := (s.charCount + 1) % s.ulongModulus
                buf := s.buf.set s.messageLength ATTN
                messageLength := s.messageLength + 1 }, [])) ∧
      (s.currentState = .MAYBE_DATA_NEXT → s.messageLength ≥ MAX_MESG_LEN →
        s.nextChar ATTN
          = ({ s with
                charCount := (s.charCount + 1) % s.ulongModulus
                errorCount := (s.errorCount + 1) % s.uintModulus
                currentState := .START }, [])) ∧
      (¬ (s.currentState = .MAYBE_DATA_NEXT ∧ b = ETX) → (s.nextChar b).2 = []) ∧
      (s.currentState = .MAYBE_DATA_NEXT →
        dispatches (s.nextChar ETX).2
            = [Event.dispatch s.messageDest s.messageType s.messageLength s.buf] ∧
          (s.nextChar ETX).1.currentState = .START) := by
  refine ⟨?_, ?_, nextChar_no_events s b, ?_⟩
  · intro h hlt
    cases s
    simp only at h hlt
    subst h
    have hl : ¬ (MAX_MESG_LEN ≤ _) := Nat.not_le.mpr hlt
    simp [nextChar, changeState, addCharToMessage, ATTN, ETX, DLE, hl]
  · intro h hge
    cases s
    simp only at h hge
    subst h
    simp [nextChar, changeState, addCharToMessage, error, ATTN, ETX, DLE, hge]
  · intro h
    rw [nextChar_ETX_counted s h]
    exact ⟨dispatches_processMessage s.counted, rfl⟩

theorem nextChar_attn_in_payload_witness :
    (exampleMidFrame.currentState = .MAYBE_DATA_NEXT ∧
        exampleMidFrame.messageLength < MAX_MESG_LEN ∧
        ¬ (exampleMidFrame.currentState = .MAYBE_DATA_NEXT ∧ STX = ETX)) ∧
      exampleMidFrame.nextChar ATTN
        = ({ exampleMidFrame with
              charCount := (exampleMidFrame.charCount + 1) % exampleMidFrame.ulongModulus
              buf := exampleMidFrame.buf.set exampleMidFrame.messageLength ATTN
              messageLength := exampleMidFrame.messageLength + 1 }, []) ∧
      (exampleMidFrame.nextChar STX).2 = [] ∧
      (dispatches (exampleMidFrame.nextChar ETX).2
          = [Event.dispatch exampleMidFrame.messageDest exampleMidFrame.messageType
              exampleMidFrame.messageLength exampleMidFrame.buf] ∧
        (exampleMidFrame.nextChar ETX).1.currentState = .START) :=
  ⟨⟨rfl, by decide, by decide⟩,
    (nextChar_attn_in_payload exampleMidFrame STX).1 rfl (by decide),
    (nextChar_attn_in_payload exampleMidFrame STX).2.2.1 (by decide),
    (nextChar_attn_in_payload exampleMidFrame STX).2.2.2 rfl⟩

end CMRI
